import Mathlib

/-!
Verification development for the service lifecycle and port-allocation
subsystem of the Byte-Ventures/likable repository.

The TypeScript sources `src/utils/portManager.ts` and `src/utils/services.ts`
are shallowly embedded below.  File contents are plain strings (modelled via
their character lists); the JavaScript regular-expression operations used by
the code (all of them non-global `String.replace` / `String.match` calls with
concrete patterns) are embedded as explicit scanning functions that reproduce
the exact backtracking semantics of each concrete pattern.  File-system reads
and writes are modelled by threading an `Option String` (the content of the
single file each operation touches, `none` when the file does not exist).
External process invocations and interactive prompts in `services.ts` are
modelled by a script of environment events consumed by an interpreter that
records a trace of the performed actions.
-/

namespace Likable

/-! ### Character classes (as used by the JavaScript regexes) -/

/-- JavaScript regex `\s` (the ASCII part, which is all the config texts and
status outputs involved here contain): space, tab, newline, carriage return,
vertical tab, form feed. -/
def isWs (c : Char) : Bool :=
  c = ' ' || c = '\t' || c = '\n' || c = '\r' || c = '\x0b' || c = '\x0c'

/-- JavaScript regex `\d`. -/
def isDigit (c : Char) : Bool :=
  '0' ≤ c && c ≤ '9'

/-- JavaScript regex word character (`\w`, used by `\b`): `[A-Za-z0-9_]`. -/
def isWordChar (c : Char) : Bool :=
  ('a' ≤ c && c ≤ 'z') || ('A' ≤ c && c ≤ 'Z') || ('0' ≤ c && c ≤ '9') || c = '_'

/-- Character class `[A-Za-z0-9_-]` used by the key-token fallback regex. -/
def isTokenChar (c : Char) : Bool :=
  isWordChar c || c = '-'

/-! ### Elementary matching combinators -/

/-- Match a literal character sequence at the head of the input, returning the
remainder on success. -/
def matchLit : List Char → List Char → Option (List Char)
  | [], l => some l
  | _ :: _, [] => none
  | p :: ps, c :: cs => if c = p then matchLit ps cs else none

/-- Case-insensitive literal match (for patterns with the `i` flag); the
pattern is given in lower case. -/
def matchLitCI : List Char → List Char → Option (List Char)
  | [], l => some l
  | _ :: _, [] => none
  | p :: ps, c :: cs => if c.toLower = p then matchLitCI ps cs else none

/-- Drop the maximal run of `\s` characters (the deterministic reading of a
greedy `\s*` whose continuation starts with a non-whitespace character). -/
def dropWs (l : List Char) : List Char :=
  l.dropWhile isWs

/-- First match of a position-wise matcher, scanning start positions from the
left exactly as a JavaScript non-anchored regex does. -/
def findFirstMap (m : List Char → Option α) : List Char → Option α
  | [] => m []
  | c :: cs =>
    match m (c :: cs) with
    | some a => some a
    | none => findFirstMap m cs

/-- `String.replace` with a non-global regex: scan start positions from the
left; at the first position where the matcher succeeds, it yields the
replacement text together with the input remaining after the matched span;
the result splices the replacement in.  If no position matches, the input is
returned unchanged. -/
def replaceFirst (m : List Char → Option (List Char × List Char)) :
    List Char → List Char
  | [] =>
    match m [] with
    | some (repl, rest) => repl ++ rest
    | none => []
  | c :: cs =>
    match m (c :: cs) with
    | some (repl, rest) => repl ++ rest
    | none => c :: replaceFirst m cs

/-! ### Port allocation (`portManager.ts`, lines 6-128)

The socket probe `isPortAvailable` is an effectful primitive; following the
spec's own test guidance it is modelled as a deterministic prober
`avail : Nat → Bool` passed to the allocation functions. -/

/-- `SupabasePortConfig` record (portManager.ts lines 6-13). -/
structure SupabasePortConfig where
  api : Nat
  db : Nat
  studio : Nat
  inbucket : Nat
  analytics : Nat
  pooler : Nat
deriving DecidableEq, Repr

/-- `DEFAULT_PORTS` (portManager.ts lines 15-22). -/
def DEFAULT_PORTS : SupabasePortConfig :=
  { api := 54321, db := 54322, studio := 54323,
    inbucket := 54324, analytics := 54327, pooler := 54329 }

/-- The six default ports in `Object.values` (insertion) order, as iterated
by the all-defaults-available loop (portManager.ts line 86). -/
def defaultPortsList : List Nat :=
  [DEFAULT_PORTS.api, DEFAULT_PORTS.db, DEFAULT_PORTS.studio,
   DEFAULT_PORTS.inbucket, DEFAULT_PORTS.analytics, DEFAULT_PORTS.pooler]

/-- The offsets array (portManager.ts lines 98-105). -/
def portOffsets : List Nat := [0, 1, 2, 3, 6, 8]

/-- `findAvailablePortRange` (portManager.ts lines 52-77): try candidate
bases `basePort + attempt*100` for `attempt = 0..49`; return the first whose
whole offset group probes available. -/
def findAvailablePortRange (avail : Nat → Bool) (basePort : Nat)
    (offsets : List Nat) : Option Nat :=
  ((List.range 50).map (fun attempt => basePort + attempt * 100)).find?
    (fun candidateBase => offsets.all (fun off => avail (candidateBase + off)))

/-- The default port set shifted by `portShift` (portManager.ts lines
118-127). -/
def shiftPorts (portShift : Nat) : SupabasePortConfig :=
  { api := DEFAULT_PORTS.api + portShift,
    db := DEFAULT_PORTS.db + portShift,
    studio := DEFAULT_PORTS.studio + portShift,
    inbucket := DEFAULT_PORTS.inbucket + portShift,
    analytics := DEFAULT_PORTS.analytics + portShift,
    pooler := DEFAULT_PORTS.pooler + portShift }

/-- Error message thrown when no range is found (portManager.ts lines
111-114). -/
def noRangeError : String :=
  "Unable to find available port range for Supabase services. " ++
  "Please free up ports or manually configure in supabase/config.toml"

/-- `allocateSupabasePorts` (portManager.ts lines 83-128), with the socket
probe supplied as a deterministic prober.  A thrown `Error` is modelled as
`Except.error`. -/
def allocateSupabasePorts (avail : Nat → Bool) :
    Except String SupabasePortConfig :=
  if defaultPortsList.all avail then
    Except.ok DEFAULT_PORTS
  else
    match findAvailablePortRange avail 54321 portOffsets with
    | none => Except.error noRangeError
    | some newBasePort => Except.ok (shiftPorts (newBasePort - 54321))

/-! ### Config patcher (`portManager.ts`, lines 155-240)

Each `content.replace(regex, ...)` call uses a non-global pattern of the
shape `header [^\[]-span key \s* = \s* value`.  The combinators below
reproduce the exact JavaScript backtracking order for each concrete pattern:
a lazy `[^\[]*?` tries the continuation before consuming a character, a
greedy `[^\[]*` consumes as far as possible (never past a `[`) and retries
the continuation while backing off. -/

/-- Lazy `[^\[]*?` followed by a continuation matcher.  Returns the span
consumed by the lazy group, the continuation's captured prefix, and the
remaining input after the whole match. -/
def scanLazy (tail : List Char → Option (List Char × List Char)) :
    List Char → Option (List Char × List Char × List Char)
  | [] => (tail []).map (fun (g, rest) => ([], g, rest))
  | c :: cs =>
    match tail (c :: cs) with
    | some (g, rest) => some ([], g, rest)
    | none =>
      if c = '[' then none
      else (scanLazy tail cs).map (fun (mid, g, rest) => (c :: mid, g, rest))

/-- Greedy `[^\[]*` followed by a continuation matcher: longest consumed span
is tried first, exactly as JavaScript backtracking does. -/
def scanGreedy (tail : List Char → Option (List Char × List Char)) :
    List Char → Option (List Char × List Char × List Char)
  | [] => (tail []).map (fun (g, rest) => ([], g, rest))
  | c :: cs =>
    if c = '[' then (tail (c :: cs)).map (fun (g, rest) => ([], g, rest))
    else
      match scanGreedy tail cs with
      | some (mid, g, rest) => some (c :: mid, g, rest)
      | none => (tail (c :: cs)).map (fun (g, rest) => ([], g, rest))

/-- Continuation `port\s*=\s*\d+` of the six port-replacement regexes
(portManager.ts lines 196-229).  Both `\s*` runs are deterministic because
the character that must follow them (`=`, a digit) is never whitespace.
Returns the text matched before the digits (the part of capture group 1
after the lazy/greedy span) and the input remaining after the digits. -/
def portTail (l : List Char) : Option (List Char × List Char) :=
  match matchLit ("port".data) l with
  | none => none
  | some r1 =>
    match r1.dropWhile isWs with
    | '=' :: r3 =>
      match ((r3.dropWhile isWs).takeWhile isDigit) with
      | [] => none
      | _ :: _ =>
        some (("port".data ++ r1.takeWhile isWs ++ '=' :: r3.takeWhile isWs),
          (r3.dropWhile isWs).dropWhile isDigit)
    | _ => none

/-- One `content.replace(/(\[hdr\]...port\s*=\s*)\d+/, "$1<port>")` matcher:
match the section-header literal, scan the bracket-free span (lazily or
greedily according to the concrete pattern) for `port\s*=\s*\d+`, and produce
the replacement `$1` followed by the decimal digits of the new port.
For the `[db]` pattern `\[db\]\s*[^\[]*?port...` the leading greedy `\s*` is
absorbed into the lazy scan: every `\s` character is also `[^\[]`, and the
continuation starts with the non-whitespace letter `p`, so the combined group
matches at exactly the first eligible `port` position — the same position the
plain lazy scan finds. -/
def matchPortSection (hdr : List Char) (greedy : Bool) (newPort : Nat)
    (l : List Char) : Option (List Char × List Char) :=
  match matchLit hdr l with
  | none => none
  | some r =>
    match (if greedy then scanGreedy portTail r else scanLazy portTail r) with
    | none => none
    | some (mid, g, rest) => some (hdr ++ mid ++ g ++ (Nat.repr newPort).data, rest)

/-- API port replacement: `/(\[api\][^\[]*port\s*=\s*)\d+/` (line 197). -/
def replaceApiPort (p : Nat) (t : List Char) : List Char :=
  replaceFirst (matchPortSection ("[api]".data) true p) t

/-- DB port replacement: `/(\[db\]\s*[^\[]*?port\s*=\s*)\d+/` (line 203). -/
def replaceDbPort (p : Nat) (t : List Char) : List Char :=
  replaceFirst (matchPortSection ("[db]".data) false p) t

/-- Studio port replacement: `/(\[studio\][^\[]*port\s*=\s*)\d+/`
(line 209). -/
def replaceStudioPort (p : Nat) (t : List Char) : List Char :=
  replaceFirst (matchPortSection ("[studio]".data) true p) t

/-- Inbucket port replacement: `/(\[inbucket\][^\[]*?port\s*=\s*)\d+/`
(line 215). -/
def replaceInbucketPort (p : Nat) (t : List Char) : List Char :=
  replaceFirst (matchPortSection ("[inbucket]".data) false p) t

/-- Analytics port replacement: `/(\[analytics\][^\[]*?port\s*=\s*)\d+/`
(line 221). -/
def replaceAnalyticsPort (p : Nat) (t : List Char) : List Char :=
  replaceFirst (matchPortSection ("[analytics]".data) false p) t

/-- Pooler port replacement: `/(\[db\.pooler\][^\[]*port\s*=\s*)\d+/`
(line 227). -/
def replacePoolerPort (p : Nat) (t : List Char) : List Char :=
  replaceFirst (matchPortSection ("[db.pooler]".data) true p) t

/-- The six sequential replacements of `updateSupabaseConfig`
(portManager.ts lines 196-229) on the file's text. -/
def updateSupabaseConfigText (ports : SupabasePortConfig)
    (content : String) : String :=
  String.mk
    (replacePoolerPort ports.pooler
      (replaceAnalyticsPort ports.analytics
        (replaceInbucketPort ports.inbucket
          (replaceStudioPort ports.studio
            (replaceDbPort ports.db
              (replaceApiPort ports.api content.data))))))

/-- Continuation `[^\n]+\n` of the cleanup regex: a maximal nonempty run of
non-newline characters followed by a newline (deterministic, since a shorter
run would leave a non-newline character where `\n` is required). -/
def matchValueNl (l : List Char) : Option (List Char) :=
  match l.takeWhile (fun c => c ≠ '\n'), l.dropWhile (fun c => c ≠ '\n') with
  | [], _ => none
  | _ :: _, '\n' :: rest => some rest
  | _, _ => none

/-- Backtracking `\s*` before `[^\n]+\n`: whitespace runs from the maximal
length down to zero are tried in order, as JavaScript's greedy `\s*` does
(here a genuine backtrack is possible because a space is both `\s` and
`[^\n]`). -/
def wsValueGo (l : List Char) : Nat → Option (List Char)
  | 0 => matchValueNl l
  | j + 1 =>
    match matchValueNl (l.drop (j + 1)) with
    | some rest => some rest
    | none => wsValueGo l j

/-- `\s*[^\n]+\n` with JavaScript backtracking order. -/
def matchWsValueNl (l : List Char) : Option (List Char) :=
  wsValueGo l (l.takeWhile isWs).length

/-- Continuation `email_optional\s*=\s*[^\n]+\n` of the cleanup regex
(portManager.ts line 169).  The `\s*` before `=` is deterministic. -/
def appleTail (l : List Char) : Option (List Char) :=
  match matchLit ("email_optional".data) l with
  | none => none
  | some r1 =>
    match r1.dropWhile isWs with
    | '=' :: r3 => matchWsValueNl r3
    | _ => none

/-- Header literal of the cleanup regex. -/
def appleHeader : List Char := "[auth.external.apple]".data

/-- Matcher for
`/(\[auth\.external\.apple\][^\[]*?)email_optional\s*=\s*[^\n]+\n/s`
(portManager.ts lines 168-171); the replacement is `$1`, i.e. the deprecated
assignment line is deleted.  The `s` flag only changes `.`, which the pattern
does not use. -/
def matchAppleSection (l : List Char) : Option (List Char × List Char) :=
  match matchLit appleHeader l with
  | none => none
  | some r =>
    match scanLazy (fun l2 => (appleTail l2).map (fun rest => ([], rest))) r with
    | none => none
    | some (mid, _, rest) => some (appleHeader ++ mid, rest)

/-- The text transformation performed by `cleanupSupabaseConfig`
(portManager.ts lines 162-173) on an existing file. -/
def cleanupSupabaseConfigText (content : String) : String :=
  String.mk (replaceFirst matchAppleSection content.data)

/-! ### File-system behaviour of the two config operations

`fs.readFile` on a missing file rejects with an `ENOENT` error.
`cleanupSupabaseConfig` catches it and, because its catch block only warns
when `error.code !== 'ENOENT'`, silently returns (portManager.ts lines
174-179); it never creates the file.  `updateSupabaseConfig`'s catch block
logs and then re-throws (`throw error`, portManager.ts line 238), so the
missing-file error propagates to the caller; it never creates the file
either.  The file is modelled as `Option String`; the result pairs the
outcome (`Except.error` for a propagated exception) with the file state
afterwards. -/

/-- `cleanupSupabaseConfig` (portManager.ts lines 159-180) on the project's
`supabase/config.toml` content. -/
def cleanupSupabaseConfigFS (file : Option String) :
    Except String Unit × Option String :=
  match file with
  | none => (Except.ok (), none)
  | some content => (Except.ok (), some (cleanupSupabaseConfigText content))

/-- `updateSupabaseConfig` (portManager.ts lines 185-240) on the project's
`supabase/config.toml` content. -/
def updateSupabaseConfigFS (ports : SupabasePortConfig)
    (file : Option String) : Except String Unit × Option String :=
  match file with
  | none =>
    (Except.error "ENOENT: no such file or directory", none)
  | some content =>
    (Except.ok (), some (updateSupabaseConfigText ports content))

/-! ### Credential extraction (`services.ts`, lines 297-352)

`JSON.parse` is a JavaScript builtin, not repository code; its outcome is
modelled as `Option JsonObj`: `some` with the parsed object's string fields
when the raw output parses, `none` when `JSON.parse` throws.  Field access
`status.K` followed by JavaScript truthiness (`||` chains: `undefined` and
the empty string are falsy) is `getTruthy`. -/

/-- A parsed JSON status object: field names mapped to string values (the
Supabase status fields involved are all strings). -/
def JsonObj : Type := List (String × String)

/-- `status.k` under JavaScript truthiness: `some v` exactly when the field
is present with a non-empty value. -/
def getTruthy (o : JsonObj) (k : String) : Option String :=
  match o.lookup k with
  | some v => if v = "" then none else some v
  | none => none

/-- The credentials record returned by the extraction functions. -/
structure Credentials where
  url : String
  anonKey : String
deriving DecidableEq, Repr

/-- Matcher for `/API URL:\s*(http:\/\/[^\s]+)/` at one position
(services.ts line 332): the `\s*` is deterministic because the following
literal starts with the non-whitespace `h`; the final `[^\s]+` is a maximal
nonempty run.  Returns capture group 1. -/
def urlAt (l : List Char) : Option (List Char) :=
  match matchLit ("API URL:".data) l with
  | none => none
  | some r1 =>
    match matchLit ("http://".data) (dropWs r1) with
    | none => none
    | some r2 =>
      match r2.takeWhile (fun c => ¬ isWs c) with
      | [] => none
      | run => some ("http://".data ++ run)

/-- First match of the URL pattern in the status output. -/
def findUrl (l : List Char) : Option (List Char) :=
  findFirstMap urlAt l

/-- Matcher for `/(?:anon\s*key|Publishable\s*key)\s*:\s*([^\s]+)/i` at one
position (services.ts line 335).  The alternation tries the `anon` branch
first; every `\s*` is deterministic here because the next required character
(`k`, `:`, or a `[^\s]` character) is never whitespace.  Returns capture
group 1. -/
def matchLabel (w : String) (l : List Char) : Option (List Char) :=
  match matchLitCI w.data l with
  | none => none
  | some r1 => matchLitCI ("key".data) (dropWs r1)

/-- The common tail `\s*:\s*([^\s]+)` after a matched key label. -/
def keyLabelTail (l : List Char) : Option (List Char) :=
  match dropWs l with
  | ':' :: r3 =>
    match (dropWs r3).takeWhile (fun c => ¬ isWs c) with
    | [] => none
    | run => some run
  | _ => none

def keyAt (l : List Char) : Option (List Char) :=
  match matchLabel "anon" l with
  | some r => keyLabelTail r
  | none =>
    match matchLabel "publishable" l with
    | some r => keyLabelTail r
    | none => none

/-- First match of the key-label pattern in the status output. -/
def findKey (l : List Char) : Option (List Char) :=
  findFirstMap keyAt l

/-- Matcher (at one position) for the token alternation of
`/\b((?:eyJ[A-Za-z0-9_-]+\.[A-Za-z0-9_-]+\.[A-Za-z0-9_-]+)|(?:sb_publishable_[A-Za-z0-9_-]+))/`
(services.ts line 339).  Each `[A-Za-z0-9_-]+` is deterministic: `.` is not
in the class, and the pattern ends after the final run.  Returns capture
group 1. -/
def matchJwtToken (l : List Char) : Option (List Char) :=
  match matchLit ("eyJ".data) l with
  | none => none
  | some r1 =>
    match r1.takeWhile isTokenChar, r1.dropWhile isTokenChar with
    | [], _ => none
    | s1, '.' :: r2 =>
      match r2.takeWhile isTokenChar, r2.dropWhile isTokenChar with
      | [], _ => none
      | s2, '.' :: r3 =>
        match r3.takeWhile isTokenChar with
        | [] => none
        | s3 => some ("eyJ".data ++ s1 ++ '.' :: s2 ++ '.' :: s3)
      | _, _ => none
    | _, _ => none

def matchSbToken (l : List Char) : Option (List Char) :=
  match matchLit ("sb_publishable_".data) l with
  | none => none
  | some r1 =>
    match r1.takeWhile isTokenChar with
    | [] => none
    | run => some ("sb_publishable_".data ++ run)

def tokenAt (l : List Char) : Option (List Char) :=
  match matchJwtToken l with
  | some t => some t
  | none => matchSbToken l

/-- Scan for the token pattern tracking the word boundary `\b`: a match may
start only at the string start or after a non-word character (the token
alternatives both start with a word character). -/
def atBoundary : Option Char → Bool
  | none => true
  | some p => ¬ isWordChar p

/-- Scan for the token pattern tracking the word boundary; see
`findToken`. -/
def findTokenFrom (prev : Option Char) : List Char → Option (List Char)
  | [] => none
  | c :: cs =>
    match (if atBoundary prev then tokenAt (c :: cs) else none) with
    | some t => some t
    | none => findTokenFrom (some c) cs

/-- First word-boundary-respecting match of the token fallback pattern. -/
def findToken (l : List Char) : Option (List Char) :=
  findTokenFrom none l

/-- The default loopback URL used when no URL is found. -/
def defaultSupabaseUrl : String := "http://127.0.0.1:54321"

/-- The explicit placeholder returned when no key is found. -/
def anonKeyPlaceholder : String := "your-anon-key-here"

/-- `extractSupabaseCredentials` (services.ts lines 331-352): regex
extraction from the raw status text, with the token fallback used only when
the labelled key pattern found nothing. -/
def credUrl (l : List Char) : String :=
  match findUrl l with
  | some u => String.mk u
  | none => defaultSupabaseUrl

def extractSupabaseCredentials (statusOutput : String) : Credentials :=
  match findKey statusOutput.data with
  | none =>
    match findToken statusOutput.data with
    | some tok =>
      { url := credUrl statusOutput.data, anonKey := String.mk tok }
    | none =>
      { url := credUrl statusOutput.data, anonKey := anonKeyPlaceholder }
  | some k => { url := credUrl statusOutput.data, anonKey := String.mk k }

/-- `extractSupabaseCredentialsFromJSON` (services.ts lines 297-329):
on parse success, probe the field-name variants under JavaScript `||`
semantics; on parse failure (`parsed = none`), fall back to
`extractSupabaseCredentials` on the raw text. -/
def extractSupabaseCredentialsFromJSON (parsed : Option JsonObj)
    (raw : String) : Credentials :=
  match parsed with
  | some status =>
    { url :=
        ((getTruthy status "API_URL").orElse fun _ =>
          (getTruthy status "API URL").orElse fun _ =>
            getTruthy status "api_url").getD defaultSupabaseUrl,
      anonKey :=
        ((getTruthy status "PUBLISHABLE_KEY").orElse fun _ =>
          (getTruthy status "Publishable key").orElse fun _ =>
            (getTruthy status "publishable_key").orElse fun _ =>
              (getTruthy status "ANON_KEY").orElse fun _ =>
                (getTruthy status "anon key").orElse fun _ =>
                  getTruthy status "anon_key").getD anonKeyPlaceholder }
  | none => extractSupabaseCredentials raw

/-! ### The backend-stack startup protocol (`services.ts`, lines 26-166)

`ServiceManager.startSupabase` interleaves external-process invocations
(`npx supabase status/start/stop`), an interactive prompt, and a recursive
retry.  The external world is modelled as a script of `EnvEvent`s consumed in
order; the interpreter records a trace of the actions the code performs.
JavaScript exceptions thrown out of `startSupabase` are the `err` outcome;
`process.exit(0)` is the `exited` outcome; a script that ends before the
code's next external call is `scriptEnded`.  The recursion of the retry
branch is driven by a fuel counter; the top-level entry point supplies
`env.length + 1` fuel, which cannot run out because every retry consumes at
least one script event. -/

/-- Whether `pat` is a prefix of the input (Boolean). -/
def hasPrefixChars : List Char → List Char → Bool
  | [], _ => true
  | _ :: _, [] => false
  | p :: ps, c :: cs => c = p && hasPrefixChars ps cs

/-- Whether `pat` occurs as a contiguous substring, as JavaScript
`String.prototype.includes` decides it. -/
def containsSub (pat : List Char) : List Char → Bool
  | [] => hasPrefixChars pat []
  | c :: cs => hasPrefixChars pat (c :: cs) || containsSub pat cs

/-- Result of one external command: captured stderr and the error message
(for a failed command), as read by `error.stderr || error.message || ''`
(services.ts line 101). -/
structure ExecErr where
  stderr : String
  message : String
deriving DecidableEq, Repr

/-- `error.stderr || error.message || ''` (services.ts line 101). -/
def errText (e : ExecErr) : String :=
  if e.stderr = "" then (if e.message = "" then "" else e.message) else e.stderr

/-- Output of one `npx supabase status --output json` invocation: the raw
stdout and the outcome of `JSON.parse` on it. -/
structure StatusOutput where
  raw : String
  parsed : Option JsonObj

/-- The three answer values of the port-conflict prompt (services.ts lines
121-134). -/
inductive PromptChoice
  | stop
  | skip
  | exit
deriving DecidableEq, Repr

/-- One scripted response of the external world, consumed in order. -/
inductive EnvEvent
  | statusRes (r : Except ExecErr StatusOutput)
  | startRes (r : Except ExecErr Unit)
  | promptAnswer (a : PromptChoice)
  | stopRes (r : Except ExecErr Unit)

/-- Observable actions of `startSupabase`, in the order performed. -/
inductive Action
  | checkExisting
  | acceptExisting
  | cleanupCfg
  | startCmd
  | postStatus
  | prompt (choices : List String)
  | stopCmd
  | stopOk
deriving DecidableEq, Repr

/-- Final outcome of a `startSupabase` run. -/
inductive Outcome
  | ok (creds : Credentials)
  | err (msg : String)
  | exited
  | scriptEnded
  | outOfFuel
deriving DecidableEq, Repr

/-- A run's outcome together with the recorded action trace. -/
structure RunResult where
  outcome : Outcome
  trace : List Action
deriving DecidableEq, Repr

/-- Prefix a run's trace with earlier actions. -/
def withTrace (pre : List Action) (r : RunResult) : RunResult :=
  { r with trace := pre ++ r.trace }

/-- The `status.API_URL || status['API URL'] || status.api_url` test of the
already-running check (services.ts line 42); a `JSON.parse` failure lands in
the catch block and counts as not running. -/
def statusHasApiUrl (s : StatusOutput) : Bool :=
  match s.parsed with
  | some o =>
    ((getTruthy o "API_URL").orElse fun _ =>
      (getTruthy o "API URL").orElse fun _ =>
        getTruthy o "api_url").isSome
  | none => false

/-- The exact choice names offered by the port-conflict prompt
(services.ts lines 121-134). -/
def conflictChoiceNames : List String :=
  ["Stop the other project and retry",
   "Skip Supabase (continue with dev server only)",
   "Exit wizard"]

/-- The catch branch of `startSupabase` (services.ts lines 86-165): if the
error text contains the port-conflict marker, prompt and dispatch on the
answer — on `stop`, run the stop command and (on its success) retry via the
supplied continuation, which is the full startup protocol with the
existing-check enabled; otherwise re-throw a descriptive error. -/
def handleStartError (retry : List EnvEvent → RunResult) (e : ExecErr)
    (env : List EnvEvent) : RunResult :=
  if containsSub ("port is already allocated".data) (errText e).data then
    match env with
    | EnvEvent.promptAnswer a :: rest =>
      match a with
      | PromptChoice.stop =>
        match rest with
        | EnvEvent.stopRes (Except.ok _) :: rest2 =>
          withTrace [Action.prompt conflictChoiceNames,
            Action.stopCmd, Action.stopOk] (retry rest2)
        | EnvEvent.stopRes (Except.error _) :: _ =>
          { outcome := Outcome.err "Could not stop conflicting Supabase project",
            trace := [Action.prompt conflictChoiceNames, Action.stopCmd] }
        | _ =>
          { outcome := Outcome.scriptEnded,
            trace := [Action.prompt conflictChoiceNames, Action.stopCmd] }
      | PromptChoice.skip =>
        { outcome := Outcome.err "Skipping Supabase startup",
          trace := [Action.prompt conflictChoiceNames] }
      | PromptChoice.exit =>
        { outcome := Outcome.exited,
          trace := [Action.prompt conflictChoiceNames] }
    | _ => { outcome := Outcome.scriptEnded, trace := [] }
  else
    { outcome := Outcome.err "Supabase startup failed. See above for details.",
      trace := [] }

/-- The fresh-start phase of `startSupabase` (services.ts lines 57-165):
clean up the config, run `npx supabase start`, and on success query status in
JSON mode and extract credentials; any failure (of the start command or of
the post-start status query) goes to the catch branch. -/
def startPhase (retry : List EnvEvent → RunResult)
    (env : List EnvEvent) : RunResult :=
  withTrace [Action.cleanupCfg]
    (match env with
    | EnvEvent.startRes (Except.ok _) :: rest =>
      match rest with
      | EnvEvent.statusRes (Except.ok s) :: _ =>
        { outcome := Outcome.ok (extractSupabaseCredentialsFromJSON s.parsed s.raw),
          trace := [Action.startCmd, Action.postStatus] }
      | EnvEvent.statusRes (Except.error e) :: rest2 =>
        withTrace [Action.startCmd, Action.postStatus]
          (handleStartError retry e rest2)
      | _ =>
        { outcome := Outcome.scriptEnded, trace := [Action.startCmd] }
    | EnvEvent.startRes (Except.error e) :: rest =>
      withTrace [Action.startCmd] (handleStartError retry e rest)
    | _ => { outcome := Outcome.scriptEnded, trace := [] })

/-- `startSupabase(skipExistingCheck)` (services.ts lines 26-166), fuelled.
With the check enabled it consumes a status result: a successful, parsed
status with a truthy URL field short-circuits to returning the extracted
credentials; anything else (a failed status command, unparsable output, or a
parsed object without the URL field) falls through to a fresh start.  The
retry inside the conflict branch is `this.startSupabase()`, i.e.
`skipExistingCheck = false`. -/
def runStart : Nat → Bool → List EnvEvent → RunResult
  | 0, _, _ => { outcome := Outcome.outOfFuel, trace := [] }
  | fuel + 1, skipExistingCheck, env =>
    let retry := fun e => runStart fuel false e
    if skipExistingCheck then
      startPhase retry env
    else
      match env with
      | EnvEvent.statusRes (Except.ok s) :: rest =>
        if statusHasApiUrl s then
          { outcome :=
              Outcome.ok (extractSupabaseCredentialsFromJSON s.parsed s.raw),
            trace := [Action.checkExisting, Action.acceptExisting] }
        else
          withTrace [Action.checkExisting] (startPhase retry rest)
      | EnvEvent.statusRes (Except.error _) :: rest =>
        withTrace [Action.checkExisting] (startPhase retry rest)
      | _ => { outcome := Outcome.scriptEnded, trace := [Action.checkExisting] }

/-- Entry point: `manager.startSupabase(skip)` against a finite script. -/
def startSupabase (skipExistingCheck : Bool) (env : List EnvEvent) : RunResult :=
  runStart (env.length + 1) skipExistingCheck env

/-! ### Shutdown and env-file update (`services.ts`, lines 233-295) -/

/-- Log levels of the logger calls involved. -/
inductive LogLevel
  | info
  | success
  | warning
  | error
deriving DecidableEq, Repr

/-- `stopSupabase` (services.ts lines 233-245): run the stop command; a
failure is swallowed (the function never throws) and logged with
`logger.info`, not `logger.error`.  The returned list is the log produced by
the call. -/
def stopSupabase (stopResult : Except ExecErr Unit) : List (LogLevel × String) :=
  (LogLevel.info, "Stopping Supabase...") ::
    match stopResult with
    | Except.ok _ => [(LogLevel.success, "Supabase stopped")]
    | Except.error _ =>
      [(LogLevel.info, "Supabase was not running or already stopped")]

/-- Matcher for `/VITE_SUPABASE_URL=.*/` at one position: the literal then a
maximal (possibly empty) run of non-line-terminator characters; replacement
is the literal followed by the new value (services.ts lines 281-284). -/
def envLineMatcher (key : String) (newValue : String) (l : List Char) :
    Option (List Char × List Char) :=
  match matchLit (key ++ "=").data l with
  | none => none
  | some r =>
    some ((key ++ "=").data ++ newValue.data,
      r.dropWhile (fun c => ¬ (c = '\n' || c = '\r')))

/-- The pure text transformation of `updateEnvFile` (services.ts lines
281-288): two non-global replacements. -/
def updateEnvFileText (creds : Credentials) (content : String) : String :=
  String.mk
    (replaceFirst (envLineMatcher "VITE_SUPABASE_ANON_KEY" creds.anonKey)
      (replaceFirst (envLineMatcher "VITE_SUPABASE_URL" creds.url)
        content.data))

/-- `ServiceManager.updateEnvFile` (services.ts lines 274-295) on the
project's `.env.local` content: a missing file (or any other failure) is
swallowed by the catch block, so the operation always returns normally; on
success the transformed content is written back. -/
def updateEnvFileFS (creds : Credentials) (file : Option String) :
    Option String :=
  match file with
  | none => none
  | some content => some (updateEnvFileText creds content)

/-! ### Auxiliary notions used to state the claims -/

/-- The six port values of a `SupabasePortConfig` as a list. -/
def portsList (ps : SupabasePortConfig) : List Nat :=
  [ps.api, ps.db, ps.studio, ps.inbucket, ps.analytics, ps.pooler]

/-- The six config-file roles whose ports `updateSupabaseConfig`
rewrites. -/
inductive Role
  | api
  | db
  | studio
  | inbucket
  | analytics
  | pooler
deriving DecidableEq, Repr

/-- The section-header literal of each role's replacement regex. -/
def roleHeader : Role → List Char
  | Role.api => "[api]".data
  | Role.db => "[db]".data
  | Role.studio => "[studio]".data
  | Role.inbucket => "[inbucket]".data
  | Role.analytics => "[analytics]".data
  | Role.pooler => "[db.pooler]".data

/-- The part of each role header literal after the opening bracket. -/
def roleInner : Role → List Char
  | Role.api => "api]".data
  | Role.db => "db]".data
  | Role.studio => "studio]".data
  | Role.inbucket => "inbucket]".data
  | Role.analytics => "analytics]".data
  | Role.pooler => "db.pooler]".data

/-- Whether the role pattern uses the greedy span (api, studio and
db.pooler) or the lazy span (db, inbucket, analytics). -/
def roleGreedy : Role → Bool
  | Role.api => true
  | Role.db => false
  | Role.studio => true
  | Role.inbucket => false
  | Role.analytics => false
  | Role.pooler => true

/-- The single-role replacement each of the six `content.replace` calls of
`updateSupabaseConfig` performs. -/
def replaceRolePort : Role → Nat → List Char → List Char
  | Role.api => replaceApiPort
  | Role.db => replaceDbPort
  | Role.studio => replaceStudioPort
  | Role.inbucket => replaceInbucketPort
  | Role.analytics => replaceAnalyticsPort
  | Role.pooler => replacePoolerPort

/-- All section spans of a given header in a text: for every position where
the header literal occurs, the span from the header to the next `[` (or the
end of the text).  This is the claims' notion of "the text of a role's
section". -/
def sectionSpans (hdr : List Char) : List Char → List (List Char)
  | [] => []
  | c :: cs =>
    match matchLit hdr (c :: cs) with
    | some r => (hdr ++ r.takeWhile (fun x => x ≠ '[')) :: sectionSpans hdr cs
    | none => sectionSpans hdr cs

/-- Split a text into its lines (the separator being the newline
character). -/
def splitLines : List Char → List (List Char)
  | [] => [[]]
  | c :: cs =>
    if c = '\n' then [] :: splitLines cs
    else
      match splitLines cs with
      | [] => [[c]]
      | l :: ls => (c :: l) :: ls

/-- The line-based text of a section: the header line and the following
lines up to (but not including) the next line that starts a section
header. -/
def sectionLines (hdr : List Char) (t : List Char) : List (List Char) :=
  match (splitLines t).dropWhile (fun l => l ≠ hdr) with
  | [] => []
  | h :: rest => h :: rest.takeWhile (fun l => ¬ hasPrefixChars ['['] l)

/-- Whether a position-wise matcher succeeds at some start position. -/
def anyPos (m : List Char → Option α) : List Char → Bool
  | [] => (m []).isSome
  | c :: cs => (m (c :: cs)).isSome || anyPos m cs

/-- Every prompt event in a trace offers exactly the documented conflict
choices. -/
def promptOk (tr : List Action) : Prop :=
  ∀ cs, Action.prompt cs ∈ tr → cs = conflictChoiceNames

/-- A concrete environment script: the status check finds nothing, the first
start fails with a port conflict, the user chooses stop-and-retry, the stop
succeeds, and the second attempt starts cleanly. -/
def conflictScriptExample : List EnvEvent :=
  [EnvEvent.statusRes (Except.error { stderr := "", message := "not running" }),
   EnvEvent.startRes (Except.error
     { stderr := "Bind for 0.0.0.0:54322 failed: port is already allocated",
       message := "" }),
   EnvEvent.promptAnswer PromptChoice.stop,
   EnvEvent.stopRes (Except.ok ()),
   EnvEvent.statusRes (Except.error { stderr := "", message := "not running" }),
   EnvEvent.startRes (Except.ok ()),
   EnvEvent.statusRes (Except.ok
     { raw := "", parsed := some [("API_URL", "http://127.0.0.1:54321")] })]

/-! ## Lemmas about the matching combinators -/

theorem matchLit_some_iff (p : List Char) : ∀ (l r : List Char),
    matchLit p l = some r ↔ l = p ++ r := by
  induction p with
  | nil =>
    intro l r
    simp [matchLit, eq_comm]
  | cons x xs ih =>
    intro l r
    cases l with
    | nil => simp [matchLit]
    | cons c cs =>
      by_cases hc : c = x
      · subst hc
        simp [matchLit, ih]
      · simp [matchLit, hc, Ne.symm hc]

theorem matchLit_append (p r : List Char) : matchLit p (p ++ r) = some r :=
  (matchLit_some_iff p (p ++ r) r).mpr rfl

theorem replaceFirst_of_none (m : List Char → Option (List Char × List Char)) :
    ∀ t : List Char, (∀ n, m (t.drop n) = none) → replaceFirst m t = t := by
  intro t
  induction t with
  | nil =>
    intro h
    have h0 := h 0
    simp at h0
    simp [replaceFirst, h0]
  | cons c cs ih =>
    intro h
    have h0 := h 0
    simp at h0
    have hrest : ∀ n, m (cs.drop n) = none := by
      intro n
      have := h (n + 1)
      simpa using this
    simp [replaceFirst, h0, ih hrest]

theorem replaceFirst_cases (m : List Char → Option (List Char × List Char)) :
    ∀ t : List Char, replaceFirst m t = t ∨
      ∃ pre suf repl rest, t = pre ++ suf ∧ m suf = some (repl, rest) ∧
        replaceFirst m t = pre ++ repl ++ rest := by
  intro t
  induction t with
  | nil =>
    cases hm : m [] with
    | none => left; simp [replaceFirst, hm]
    | some pr =>
      right
      exact ⟨[], [], pr.1, pr.2, by simp, by simp [hm], by simp [replaceFirst, hm]⟩
  | cons c cs ih =>
    cases hm : m (c :: cs) with
    | some pr =>
      right
      exact ⟨[], c :: cs, pr.1, pr.2, by simp, by simp [hm],
        by simp [replaceFirst, hm]⟩
    | none =>
      cases ih with
      | inl heq => left; simp [replaceFirst, hm, heq]
      | inr hex =>
        obtain ⟨pre, suf, repl, rest, ht, hms, hres⟩ := hex
        right
        exact ⟨c :: pre, suf, repl, rest, by simp [ht], hms,
          by simp [replaceFirst, hm, hres]⟩

theorem anyPos_false (m : List Char → Option α) :
    ∀ t : List Char, anyPos m t = false → ∀ n, m (t.drop n) = none := by
  intro t
  induction t with
  | nil =>
    intro h n
    simp [anyPos] at h
    simpa [Option.isSome_iff_exists] using h
  | cons c cs ih =>
    intro h n
    simp [anyPos] at h
    cases n with
    | zero => simpa [Option.isSome_iff_exists] using h.1
    | succ k => exact ih h.2 k

theorem hasPrefixChars_false_matchLit (p : List Char) :
    ∀ l : List Char, hasPrefixChars p l = false → matchLit p l = none := by
  induction p with
  | nil => intro l h; simp [hasPrefixChars] at h
  | cons x xs ih =>
    intro l h
    cases l with
    | nil => simp [matchLit]
    | cons c cs =>
      simp [hasPrefixChars] at h
      by_cases hc : c = x
      · simp [matchLit, hc, ih cs (h hc)]
      · simp [matchLit, hc]

theorem containsSub_false_drop (pat : List Char) :
    ∀ t : List Char, containsSub pat t = false →
      ∀ n, hasPrefixChars pat (t.drop n) = false := by
  intro t
  induction t with
  | nil =>
    intro h n
    simpa [containsSub] using h
  | cons c cs ih =>
    intro h n
    simp [containsSub] at h
    cases n with
    | zero => exact h.1
    | succ k => exact ih h.2 k

theorem string_mk_data (s : String) : String.mk s.data = s := by
  cases s
  rfl

/-! ## Claim C1 — missing-file behaviour of the two config operations

The claim asserts that both `updateSupabaseConfig` and
`cleanupSupabaseConfig` return normally when `supabase/config.toml` does not
exist.  That is true of `cleanupSupabaseConfig` (its catch block swallows the
`ENOENT` rejection silently), but false of `updateSupabaseConfig`: its catch
block logs and then re-throws (`throw error`, portManager.ts line 238), so
the missing-file error propagates.  Neither operation creates the file. -/

/-- Claim C1 counterexample: on a project whose `supabase/config.toml` does
not exist, `updateSupabaseConfig` does not return normally — the `ENOENT`
read error is re-thrown. -/
theorem claim1_counterexample :
    (updateSupabaseConfigFS DEFAULT_PORTS none).1 ≠ Except.ok () := by
  simp [updateSupabaseConfigFS]

/-- Claim C1 (amended): for a project path whose `supabase/config.toml` does
not exist, `cleanupSupabaseConfig` returns normally without creating the
file, while `updateSupabaseConfig` raises (it re-throws the read error) and
also does not create the file. -/
theorem claim1_amended_thm :
    cleanupSupabaseConfigFS none = (Except.ok (), none) ∧
    ∀ ports : SupabasePortConfig,
      (∃ e, (updateSupabaseConfigFS ports none).1 = Except.error e) ∧
      (updateSupabaseConfigFS ports none).2 = none := by
  refine ⟨rfl, fun ports => ⟨⟨"ENOENT: no such file or directory", rfl⟩, rfl⟩⟩

/-! ## Claim C3 — idempotence of the deprecated-key cleanup pass

The claim asserts idempotence for every config text.  It fails when the
`[auth.external.apple]` section contains more than one `email_optional`
assignment: the replacement is non-global, so each pass removes only the
first assignment, and a second pass removes another one.  What does hold is
that a pass never alters a file in which no further assignment matches — in
particular a file whose apple section contained at most one deprecated key
is a fixed point after one pass. -/

theorem cleanup_fixed_of_no_match (t : String)
    (h : anyPos matchAppleSection t.data = false) :
    cleanupSupabaseConfigText t = t := by
  unfold cleanupSupabaseConfigText
  rw [replaceFirst_of_none matchAppleSection t.data (anyPos_false _ _ h)]

/-- Claim C3 counterexample: a config whose apple section carries two
deprecated `email_optional` assignments; the first cleanup pass removes only
the first one (the replacement is non-global), so a second pass changes the
output of the first. -/
theorem claim3_counterexample :
    cleanupSupabaseConfigText (cleanupSupabaseConfigText
      "[auth.external.apple]\nemail_optional = true\nemail_optional = false\n") ≠
    cleanupSupabaseConfigText
      "[auth.external.apple]\nemail_optional = true\nemail_optional = false\n" := by
  decide

/-- Claim C3 (amended): the cleanup pass never alters an already-clean file:
whenever the output of one application contains no further match of the
deprecated-key pattern (which is the case in particular for every config
whose apple section held at most one `email_optional` assignment), a second
application returns that output byte-identically.  Full idempotence on every
text fails, because the non-global replacement removes only the first of
several deprecated assignments per pass. -/
theorem claim3_amended_thm (t : String)
    (h : anyPos matchAppleSection (cleanupSupabaseConfigText t).data = false) :
    cleanupSupabaseConfigText (cleanupSupabaseConfigText t) =
      cleanupSupabaseConfigText t :=
  cleanup_fixed_of_no_match (cleanupSupabaseConfigText t) h

/-- Witness for the amended C3 theorem at a concrete dirty config with a
single deprecated assignment. -/
theorem claim3_amended_witness :
    anyPos matchAppleSection (cleanupSupabaseConfigText
      "[auth.external.apple]\nenabled = true\nemail_optional = true\nclient_id = \"x\"\n").data
      = false ∧
    cleanupSupabaseConfigText (cleanupSupabaseConfigText
      "[auth.external.apple]\nenabled = true\nemail_optional = true\nclient_id = \"x\"\n") =
    cleanupSupabaseConfigText
      "[auth.external.apple]\nenabled = true\nemail_optional = true\nclient_id = \"x\"\n" :=
  ⟨by decide, claim3_amended_thm _ (by decide)⟩

/-! ## Claim C10 — `updateEnvFile` only rewrites existing assignments -/

theorem envLineMatcher_none (key newValue : String) (l : List Char)
    (h : hasPrefixChars (key ++ "=").data l = false) :
    envLineMatcher key newValue l = none := by
  unfold envLineMatcher
  rw [hasPrefixChars_false_matchLit _ _ h]

/-- Claim C10: if the `.env.local` content contains neither a
`VITE_SUPABASE_URL=` assignment nor a `VITE_SUPABASE_ANON_KEY=` assignment,
`updateEnvFile` writes back exactly what it read — credentials are never
appended as new lines — and the operation completes without raising (its
model is a total function; every failure is swallowed by the catch
block). -/
theorem claim10_thm (creds : Credentials) (c : String)
    (h1 : containsSub ("VITE_SUPABASE_URL=".data) c.data = false)
    (h2 : containsSub ("VITE_SUPABASE_ANON_KEY=".data) c.data = false) :
    updateEnvFileFS creds (some c) = some c := by
  have hempty1 : ∀ n, envLineMatcher "VITE_SUPABASE_URL" creds.url (c.data.drop n) = none := by
    intro n
    exact envLineMatcher_none _ _ _ (containsSub_false_drop _ _ h1 n)
  have hfix1 : replaceFirst (envLineMatcher "VITE_SUPABASE_URL" creds.url) c.data = c.data :=
    replaceFirst_of_none _ _ hempty1
  have hempty2 : ∀ n,
      envLineMatcher "VITE_SUPABASE_ANON_KEY" creds.anonKey (c.data.drop n) = none := by
    intro n
    exact envLineMatcher_none _ _ _ (containsSub_false_drop _ _ h2 n)
  have hfix2 : replaceFirst (envLineMatcher "VITE_SUPABASE_ANON_KEY" creds.anonKey) c.data
      = c.data := replaceFirst_of_none _ _ hempty2
  simp [updateEnvFileFS, updateEnvFileText, hfix1, hfix2, string_mk_data]

/-- Witness for C10 at a concrete `.env.local` content carrying neither
assignment. -/
theorem claim10_witness :
    containsSub ("VITE_SUPABASE_URL=".data) ("FOO=bar\nBAZ=1\n" : String).data = false ∧
    containsSub ("VITE_SUPABASE_ANON_KEY=".data) ("FOO=bar\nBAZ=1\n" : String).data = false ∧
    updateEnvFileFS { url := "http://127.0.0.1:54321", anonKey := "k" }
      (some "FOO=bar\nBAZ=1\n") = some "FOO=bar\nBAZ=1\n" :=
  ⟨by decide, by decide, claim10_thm _ _ (by decide) (by decide)⟩

/-! ## Claims C4 and C8 — the port allocator -/

theorem findAvailablePortRange_some (avail : Nat → Bool) (b : Nat)
    (os : List Nat) (c : Nat)
    (h : findAvailablePortRange avail b os = some c) :
    ∃ a, a < 50 ∧ c = b + a * 100 ∧
      os.all (fun off => avail (c + off)) = true := by
  unfold findAvailablePortRange at h
  have hpred := List.find?_some h
  have hmem := List.mem_of_find?_eq_some h
  simp only [List.mem_map, List.mem_range] at hmem
  obtain ⟨a, ha, hc⟩ := hmem
  exact ⟨a, ha, hc.symm, hpred⟩

theorem offsets_zero_eq_defaults (avail : Nat → Bool) :
    portOffsets.all (fun off => avail (54321 + off)) = defaultPortsList.all avail := by
  norm_num [portOffsets, defaultPortsList, DEFAULT_PORTS, List.all]

/-- Claim C4: under a deterministic prober, every `PortSet` returned by
`allocateSupabasePorts` has six pairwise-distinct role ports; and whenever
the default set was unavailable, the returned set is the default set shifted
by one constant positive offset. -/
theorem claim4_thm (avail : Nat → Bool) (ps : SupabasePortConfig)
    (h : allocateSupabasePorts avail = Except.ok ps) :
    (portsList ps).Nodup ∧
    (defaultPortsList.all avail = false → ∃ k, 0 < k ∧ ps = shiftPorts k) := by
  unfold allocateSupabasePorts at h
  by_cases hall : defaultPortsList.all avail
  · rw [if_pos hall] at h
    have hps : ps = DEFAULT_PORTS := (Except.ok.inj h).symm
    subst hps
    refine ⟨by simp [portsList, DEFAULT_PORTS], fun hfalse => ?_⟩
    rw [hall] at hfalse
    cases hfalse
  · rw [if_neg hall] at h
    cases hfind : findAvailablePortRange avail 54321 portOffsets with
    | none => rw [hfind] at h; cases h
    | some c =>
      rw [hfind] at h
      have hps : ps = shiftPorts (c - 54321) := (Except.ok.inj h).symm
      obtain ⟨a, ha, hc, hpred⟩ := findAvailablePortRange_some avail 54321 portOffsets c hfind
      have ha0 : a ≠ 0 := by
        intro h0
        subst h0
        have hc0 : c = 54321 := by omega
        subst hc0
        rw [offsets_zero_eq_defaults] at hpred
        exact hall (by simp [hpred])
      have hkc : c - 54321 = a * 100 := by omega
      subst hps
      constructor
      · rw [hkc]
        simp [portsList, shiftPorts, DEFAULT_PORTS]
      · intro _
        exact ⟨a * 100, by omega, by rw [hkc]⟩

/-- Witness for C4 with the prober that reports every port below 54421 as
occupied: the defaults are unavailable and the allocator returns the default
set shifted by 100. -/
theorem claim4_witness :
    (portsList (shiftPorts 100)).Nodup ∧
    (defaultPortsList.all (fun p => decide (54421 ≤ p)) = false →
      ∃ k, 0 < k ∧ shiftPorts 100 = shiftPorts k) :=
  claim4_thm (fun p => decide (54421 ≤ p)) (shiftPorts 100) rfl

/-- Claim C8: for every prober, `allocateSupabasePorts` terminates with
either a port set or the descriptive no-range error; every candidate base
the search can return comes from the bounded 50-attempt schedule; and with a
prober that always reports occupied the allocator throws the descriptive
error rather than looping. -/
theorem claim8_thm :
    (∀ avail : Nat → Bool,
      (∃ ps, allocateSupabasePorts avail = Except.ok ps) ∨
        allocateSupabasePorts avail = Except.error noRangeError) ∧
    (∀ (avail : Nat → Bool) (b : Nat) (os : List Nat) (c : Nat),
      findAvailablePortRange avail b os = some c → ∃ a, a < 50 ∧ c = b + a * 100) ∧
    allocateSupabasePorts (fun _ => false) = Except.error noRangeError := by
  refine ⟨fun avail => ?_, fun avail b os c h => ?_, by rfl⟩
  · unfold allocateSupabasePorts
    by_cases hall : defaultPortsList.all avail
    · rw [if_pos hall]
      exact Or.inl ⟨DEFAULT_PORTS, rfl⟩
    · rw [if_neg hall]
      cases hfind : findAvailablePortRange avail 54321 portOffsets with
      | none => exact Or.inr rfl
      | some c => exact Or.inl ⟨shiftPorts (c - 54321), rfl⟩
  · obtain ⟨a, ha, hc, _⟩ := findAvailablePortRange_some avail b os c h
    exact ⟨a, ha, hc⟩

/-- Witness for C8: the always-occupied prober yields the descriptive error,
and a concrete successful search result lies on the bounded candidate
schedule. -/
theorem claim8_witness :
    allocateSupabasePorts (fun _ => false) = Except.error noRangeError ∧
    ∃ a, a < 50 ∧ 54521 = 54321 + a * 100 :=
  ⟨claim8_thm.2.2,
   claim8_thm.2.1 (fun p => decide (54521 ≤ p)) 54321 portOffsets 54521 (by decide)⟩

/-! ## Claim C9 — idempotent, tolerant shutdown

`stopSupabase` is modelled as a total function from the stop command's
result to the log it produces: the catch block swallows every failure, so
the call cannot raise, and the failure branch logs with `logger.info`. -/

/-- Claim C9: calling `stopSupabase` twice in a row, the second time when
the backend is already stopped and its stop command fails, does not raise
(the model is total — the second call still produces its log and the
combined log is exactly the first call's log followed by the two
informational lines), and everything the failing second call logs is at the
informational level, never error or warning. -/
theorem claim9_thm (r1 : Except ExecErr Unit) (e : ExecErr) :
    stopSupabase r1 ++ stopSupabase (Except.error e) =
      stopSupabase r1 ++
        [(LogLevel.info, "Stopping Supabase..."),
         (LogLevel.info, "Supabase was not running or already stopped")] ∧
    ∀ lvl msg, (lvl, msg) ∈ stopSupabase (Except.error e) →
      lvl ≠ LogLevel.error ∧ lvl ≠ LogLevel.warning := by
  refine ⟨rfl, ?_⟩
  intro lvl msg hmem
  simp [stopSupabase] at hmem
  rcases hmem with ⟨h1, -⟩ | ⟨h1, -⟩ <;> subst h1 <;>
    exact ⟨by decide, by decide⟩

/-- Witness for C9: the second, failing call's informational message is in
its log, and its level is neither error nor warning. -/
theorem claim9_witness :
    LogLevel.info ≠ LogLevel.error ∧ LogLevel.info ≠ LogLevel.warning :=
  (claim9_thm (Except.ok ()) { stderr := "", message := "supabase stop failed" }).2
    LogLevel.info "Supabase was not running or already stopped"
    (by simp [stopSupabase])

/-! ## Claim C2 — the credential-extraction fallback chain -/

theorem getTruthy_some_ne (o : JsonObj) (k v : String)
    (h : getTruthy o k = some v) : v ≠ "" := by
  unfold getTruthy at h
  split at h
  · split at h
    · cases h
    · intro hv
      subst hv
      simp_all
  · cases h

theorem orElse_pred {P : String → Prop} {a : Option String}
    {b : Unit → Option String}
    (ha : ∀ v, a = some v → P v) (hb : ∀ v, b () = some v → P v) :
    ∀ v, a.orElse b = some v → P v := by
  cases a with
  | none => intro v hv; exact hb v (by simpa [Option.orElse] using hv)
  | some x => intro v hv; exact ha v (by simpa [Option.orElse] using hv)

theorem getD_pred {P : String → Prop} {a : Option String} {d : String}
    (ha : ∀ v, a = some v → P v) (hd : P d) : P (a.getD d) := by
  cases a with
  | none => simpa using hd
  | some x => simpa using ha x rfl

theorem findFirstMap_pred {P : α → Prop} (m : List Char → Option α)
    (hm : ∀ l a, m l = some a → P a) :
    ∀ t a, findFirstMap m t = some a → P a := by
  intro t
  induction t with
  | nil => intro a h; exact hm [] a h
  | cons c cs ih =>
    intro a h
    unfold findFirstMap at h
    split at h
    · exact hm (c :: cs) a (by simp_all)
    · exact ih a h

theorem string_mk_ne_empty (l : List Char) (h : l ≠ []) :
    String.mk l ≠ "" := by
  intro hc
  exact h (by simpa using congrArg String.data hc)

/-! ### Nonemptiness of the extraction matchers' captures -/


theorem urlAt_some_ne (l u : List Char) (h : urlAt l = some u) : u ≠ [] := by
  unfold urlAt at h
  repeat' split at h
  all_goals first
    | (rw [← Option.some_inj.mp h]; intro hc; simp at hc)
    | cases h

theorem keyLabelTail_some_ne (l k : List Char) (h : keyLabelTail l = some k) :
    k ≠ [] := by
  unfold keyLabelTail at h
  split at h
  · split at h
    · cases h
    · rename_i hrun
      rw [← Option.some_inj.mp h]
      exact hrun
  · cases h

theorem keyAt_some_ne (l k : List Char) (h : keyAt l = some k) : k ≠ [] := by
  unfold keyAt at h
  split at h
  · exact keyLabelTail_some_ne _ _ h
  · split at h
    · exact keyLabelTail_some_ne _ _ h
    · cases h

theorem matchJwtToken_some_ne (l t : List Char) (h : matchJwtToken l = some t) :
    t ≠ [] := by
  unfold matchJwtToken at h
  repeat' split at h
  all_goals first
    | (rw [← Option.some_inj.mp h]; intro hc; simp at hc)
    | cases h

theorem matchSbToken_some_ne (l t : List Char) (h : matchSbToken l = some t) :
    t ≠ [] := by
  unfold matchSbToken at h
  repeat' split at h
  all_goals first
    | (rw [← Option.some_inj.mp h]; intro hc; simp at hc)
    | cases h

theorem tokenAt_some_ne (l t : List Char) (h : tokenAt l = some t) : t ≠ [] := by
  unfold tokenAt at h
  split at h
  · rename_i heq
    rw [← Option.some_inj.mp h]
    exact matchJwtToken_some_ne _ _ heq
  · exact matchSbToken_some_ne _ _ h

theorem findKey_some_ne (l k : List Char) (h : findKey l = some k) : k ≠ [] :=
  findFirstMap_pred keyAt keyAt_some_ne l k h

theorem findTokenFrom_some_ne :
    ∀ (prev : Option Char) (l t : List Char),
      findTokenFrom prev l = some t → t ≠ [] := by
  intro prev l
  induction l generalizing prev with
  | nil => intro t ht; cases ht
  | cons c cs ih =>
    intro t ht
    unfold findTokenFrom at ht
    split at ht
    · rename_i t' heq
      split at heq
      · rw [← Option.some_inj.mp ht]
        exact tokenAt_some_ne _ _ heq
      · cases heq
    · exact ih _ _ ht

theorem findToken_some_ne (l t : List Char) (h : findToken l = some t) :
    t ≠ [] :=
  findTokenFrom_some_ne none l t h

theorem findUrl_some_ne (l u : List Char) (h : findUrl l = some u) : u ≠ [] :=
  findFirstMap_pred urlAt urlAt_some_ne l u h

/-! ## Claim C2 proper

The claim's second scenario quantifies over texts containing any
"dot-delimited three-segment token".  The code's last-resort pattern
(services.ts line 339) only recognizes the two known key-token shapes — a
JWT-like `eyJ…​.…​.…` token or an `sb_publishable_…` token — so a generic
three-segment token such as `abc.def.ghi` is not recovered and the
placeholder is returned instead.  Likewise, in the structured scenario a
legacy field whose value is the empty string is falsy under the `||` chain,
so the placeholder (not the field's empty value) is returned.  Both
deviations are exhibited by the counterexample; the amended theorem states
the chain with those two qualifications. -/

/-- Claim C2 counterexample: unparsable text containing the dot-delimited
three-segment token `abc.def.ghi` does not get that token back as the key
(the last-resort pattern only accepts the two known token shapes), and a
structured status whose only legacy key field has the empty-string value
does not get that value back (the placeholder is substituted). -/
theorem claim2_counterexample :
    (extractSupabaseCredentialsFromJSON none "token abc.def.ghi here").anonKey ≠
      "abc.def.ghi" ∧
    (extractSupabaseCredentialsFromJSON
      (some [("anon_key", "")]) "").anonKey ≠ "" :=
  ⟨by decide, by decide⟩

/-- Claim C2 (amended): the documented fallback chain holds with the two
qualifications the code imposes. (1) Structured JSON containing only the
legacy field `anon_key` with a non-empty value yields that value as the key,
with the default loopback URL. (2) On unparsable text in which the labelled
key pattern finds nothing but the last-resort pattern finds a token (one of
the two known shapes: `eyJ…​.…​.…` or `sb_publishable_…`), that token is
returned as the key. (3) On text where no URL label, no key label and no
known token shape is found, the default loopback URL and the explicit
placeholder are returned. (4) In every case the extracted key and URL are
non-empty — and extraction is a total function, never an exception. -/
theorem claim2_amended_thm :
    (∀ k raw : String, k ≠ "" →
      extractSupabaseCredentialsFromJSON (some [("anon_key", k)]) raw =
        { url := defaultSupabaseUrl, anonKey := k }) ∧
    (∀ raw : String, findKey raw.data = none → ∀ tok, findToken raw.data = some tok →
      (extractSupabaseCredentialsFromJSON none raw).anonKey = String.mk tok) ∧
    (∀ raw : String, findUrl raw.data = none → findKey raw.data = none →
      findToken raw.data = none →
      extractSupabaseCredentialsFromJSON none raw =
        { url := defaultSupabaseUrl, anonKey := anonKeyPlaceholder }) ∧
    (∀ (parsed : Option JsonObj) (raw : String),
      (extractSupabaseCredentialsFromJSON parsed raw).anonKey ≠ "" ∧
      (extractSupabaseCredentialsFromJSON parsed raw).url ≠ "") := by
  refine ⟨fun k raw h => ?_, fun raw hk tok ht => ?_, fun raw hu hk ht => ?_,
    fun parsed raw => ?_⟩
  · simp [extractSupabaseCredentialsFromJSON, getTruthy, List.lookup, h]
  · show (extractSupabaseCredentials raw).anonKey = _
    simp [extractSupabaseCredentials, hk, ht]
  · show extractSupabaseCredentials raw = _
    simp [extractSupabaseCredentials, credUrl, hu, hk, ht]
  · cases parsed with
    | some status =>
      constructor
      · exact getD_pred (P := fun v => v ≠ "")
          (orElse_pred (fun v hv => getTruthy_some_ne status _ v hv)
            (orElse_pred (fun v hv => getTruthy_some_ne status _ v hv)
              (orElse_pred (fun v hv => getTruthy_some_ne status _ v hv)
                (orElse_pred (fun v hv => getTruthy_some_ne status _ v hv)
                  (orElse_pred (fun v hv => getTruthy_some_ne status _ v hv)
                    (fun v hv => getTruthy_some_ne status _ v hv))))))
          (by decide)
      · exact getD_pred (P := fun v => v ≠ "")
          (orElse_pred (fun v hv => getTruthy_some_ne status _ v hv)
            (orElse_pred (fun v hv => getTruthy_some_ne status _ v hv)
              (fun v hv => getTruthy_some_ne status _ v hv)))
          (by decide)
    | none =>
      show (extractSupabaseCredentials raw).anonKey ≠ "" ∧
        (extractSupabaseCredentials raw).url ≠ ""
      have hurl : credUrl raw.data ≠ "" := by
        unfold credUrl
        split
        · rename_i u hu
          exact string_mk_ne_empty u (findUrl_some_ne _ _ hu)
        · decide
      unfold extractSupabaseCredentials
      split
      · split
        · rename_i tok htok
          exact ⟨string_mk_ne_empty tok (findToken_some_ne _ _ htok), hurl⟩
        · exact ⟨by simp [anonKeyPlaceholder], hurl⟩
      · rename_i k hk
        exact ⟨string_mk_ne_empty k (findKey_some_ne _ _ hk), hurl⟩

/-- Witness for the amended C2 theorem at concrete inputs: a non-empty
legacy-field value, and an unparsable text whose JWT-shaped token is
recovered. -/
theorem claim2_amended_witness :
    extractSupabaseCredentialsFromJSON (some [("anon_key", "eyJhh.bb.cc")]) "" =
      { url := defaultSupabaseUrl, anonKey := "eyJhh.bb.cc" } ∧
    (extractSupabaseCredentialsFromJSON none "blah eyJaa.bb.cc blah").anonKey =
      String.mk ("eyJaa.bb.cc" : String).data :=
  ⟨claim2_amended_thm.1 "eyJhh.bb.cc" "" (by decide),
   claim2_amended_thm.2.1 "blah eyJaa.bb.cc blah" (by decide) _ (by decide)⟩

/-! ## Claim C7 — the already-running check -/

theorem getTruthy_isSome_iff (o : JsonObj) (k : String) :
    (getTruthy o k).isSome = true ↔ ∃ v, o.lookup k = some v ∧ v ≠ "" := by
  unfold getTruthy
  split
  · rename_i v hv
    split
    · rename_i hve
      subst hve
      simp [hv]
    · rename_i hve
      simp [hv, hve]
  · rename_i hv
    simp [hv]

theorem orElse_isSome (a : Option String) (b : Unit → Option String) :
    (a.orElse b).isSome = (a.isSome || (b ()).isSome) := by
  cases a <;> simp [Option.orElse]

theorem statusHasApiUrl_iff (s : StatusOutput) :
    statusHasApiUrl s = true ↔
      ∃ o, s.parsed = some o ∧
        ((∃ v, o.lookup "API_URL" = some v ∧ v ≠ "") ∨
         (∃ v, o.lookup "API URL" = some v ∧ v ≠ "") ∨
         (∃ v, o.lookup "api_url" = some v ∧ v ≠ "")) := by
  unfold statusHasApiUrl
  split
  · rename_i o ho
    rw [orElse_isSome, orElse_isSome]
    simp [ho, getTruthy_isSome_iff]
  · rename_i ho
    simp [ho]

theorem startPhase_trace_cons (retry : List EnvEvent → RunResult)
    (env : List EnvEvent) :
    ∃ tl, (startPhase retry env).trace = Action.cleanupCfg :: tl := by
  unfold startPhase withTrace
  exact ⟨_, rfl⟩

theorem runStart_existing_check (fuel : Nat) (s : StatusOutput)
    (rest : List EnvEvent) :
    ((runStart (fuel + 1) false (EnvEvent.statusRes (Except.ok s) :: rest)).outcome =
        Outcome.ok (extractSupabaseCredentialsFromJSON s.parsed s.raw) ∧
      (runStart (fuel + 1) false (EnvEvent.statusRes (Except.ok s) :: rest)).trace =
        [Action.checkExisting, Action.acceptExisting]
      ↔ ∃ o, s.parsed = some o ∧
          ((∃ v, o.lookup "API_URL" = some v ∧ v ≠ "") ∨
           (∃ v, o.lookup "API URL" = some v ∧ v ≠ "") ∨
           (∃ v, o.lookup "api_url" = some v ∧ v ≠ ""))) ∧
    (statusHasApiUrl s = false →
      runStart (fuel + 1) false (EnvEvent.statusRes (Except.ok s) :: rest) =
        withTrace [Action.checkExisting]
          (startPhase (fun e => runStart fuel false e) rest)) := by
  constructor
  · rw [← statusHasApiUrl_iff]
    by_cases h : statusHasApiUrl s
    · simp [runStart, h]
    · have hrun : runStart (fuel + 1) false (EnvEvent.statusRes (Except.ok s) :: rest) =
          withTrace [Action.checkExisting]
            (startPhase (fun e => runStart fuel false e) rest) := by
        simp [runStart, h]
      rw [hrun]
      constructor
      · rintro ⟨-, htr⟩
        obtain ⟨tl, htl⟩ := startPhase_trace_cons (fun e => runStart fuel false e) rest
        simp [withTrace, htl] at htr
      · intro hc
        exact absurd hc h
  · intro h
    simp [runStart, h]

/-- Claim C7: with the existing-check enabled, `startSupabase` accepts the
backend as already running — returning the credentials extracted from the
status output, with no start command issued — if and only if the status
command's output parses to an object containing a non-empty field under one
of the names `API_URL`, `API URL`, `api_url`; and whenever the check does
not accept (in particular for a parseable response lacking the field), the
run proceeds into the fresh-start phase. -/
theorem claim7_thm (s : StatusOutput) (rest : List EnvEvent) :
    ((startSupabase false (EnvEvent.statusRes (Except.ok s) :: rest)).outcome =
        Outcome.ok (extractSupabaseCredentialsFromJSON s.parsed s.raw) ∧
      (startSupabase false (EnvEvent.statusRes (Except.ok s) :: rest)).trace =
        [Action.checkExisting, Action.acceptExisting]
      ↔ ∃ o, s.parsed = some o ∧
          ((∃ v, o.lookup "API_URL" = some v ∧ v ≠ "") ∨
           (∃ v, o.lookup "API URL" = some v ∧ v ≠ "") ∨
           (∃ v, o.lookup "api_url" = some v ∧ v ≠ ""))) ∧
    (statusHasApiUrl s = false →
      startSupabase false (EnvEvent.statusRes (Except.ok s) :: rest) =
        withTrace [Action.checkExisting]
          (startPhase (fun e => runStart (rest.length + 1) false e) rest)) :=
  runStart_existing_check (rest.length + 1) s rest

/-- Witness for C7: a status output whose parsed object carries `API_URL`
is accepted as already running, with the extracted credentials returned and
no start command in the trace. -/
theorem claim7_witness :
    (startSupabase false [EnvEvent.statusRes (Except.ok
        { raw := "{}",
          parsed := some [("API_URL", "http://127.0.0.1:54321"), ("ANON_KEY", "k1")] })]).outcome =
      Outcome.ok (extractSupabaseCredentialsFromJSON
        (some [("API_URL", "http://127.0.0.1:54321"), ("ANON_KEY", "k1")]) "{}") ∧
    (startSupabase false [EnvEvent.statusRes (Except.ok
        { raw := "{}",
          parsed := some [("API_URL", "http://127.0.0.1:54321"), ("ANON_KEY", "k1")] })]).trace =
      [Action.checkExisting, Action.acceptExisting] :=
  (claim7_thm
      { raw := "{}",
        parsed := some [("API_URL", "http://127.0.0.1:54321"), ("ANON_KEY", "k1")] }
      []).1.mpr
    ⟨[("API_URL", "http://127.0.0.1:54321"), ("ANON_KEY", "k1")], rfl,
     Or.inl ⟨"http://127.0.0.1:54321", rfl, by decide⟩⟩

/-! ## Claim C5 — the port-conflict remediation branch -/

theorem promptOk_append {a b : List Action} (ha : promptOk a) (hb : promptOk b) :
    promptOk (a ++ b) := by
  intro cs h
  rcases List.mem_append.mp h with h | h
  · exact ha cs h
  · exact hb cs h

theorem promptOk_nil : promptOk [] := by
  intro cs h
  cases h

theorem promptOk_cons_nonprompt {tr : List Action} (a : Action)
    (hne : ∀ cs, a ≠ Action.prompt cs) (h : promptOk tr) :
    promptOk (a :: tr) := by
  intro cs hm
  rcases List.mem_cons.mp hm with hm | hm
  · exact absurd hm.symm (hne cs)
  · exact h cs hm

theorem promptOk_cons_prompt {tr : List Action} (h : promptOk tr) :
    promptOk (Action.prompt conflictChoiceNames :: tr) := by
  intro cs hm
  rcases List.mem_cons.mp hm with hm | hm
  · cases hm
    rfl
  · exact h cs hm

theorem handleStartError_promptOk (retry : List EnvEvent → RunResult)
    (hr : ∀ env, promptOk (retry env).trace)
    (e : ExecErr) (env : List EnvEvent) :
    promptOk (handleStartError retry e env).trace := by
  unfold handleStartError
  split
  · split
    · split
      · split
        · exact promptOk_cons_prompt (promptOk_cons_nonprompt _ (by intro cs h; cases h)
            (promptOk_cons_nonprompt _ (by intro cs h; cases h) (hr _)))
        · exact promptOk_cons_prompt (promptOk_cons_nonprompt _ (by intro cs h; cases h)
            promptOk_nil)
        · exact promptOk_cons_prompt (promptOk_cons_nonprompt _ (by intro cs h; cases h)
            promptOk_nil)
      · exact promptOk_cons_prompt promptOk_nil
      · exact promptOk_cons_prompt promptOk_nil
    · exact promptOk_nil
  · exact promptOk_nil

theorem startPhase_promptOk (retry : List EnvEvent → RunResult)
    (hr : ∀ env, promptOk (retry env).trace)
    (env : List EnvEvent) :
    promptOk (startPhase retry env).trace := by
  unfold startPhase withTrace
  apply promptOk_cons_nonprompt _ (by intro cs h; cases h)
  split
  · split
    · exact promptOk_cons_nonprompt _ (by intro cs h; cases h)
        (promptOk_cons_nonprompt _ (by intro cs h; cases h) promptOk_nil)
    · exact promptOk_cons_nonprompt _ (by intro cs h; cases h)
        (promptOk_cons_nonprompt _ (by intro cs h; cases h)
          (handleStartError_promptOk retry hr _ _))
    · exact promptOk_cons_nonprompt _ (by intro cs h; cases h) promptOk_nil
  · exact promptOk_cons_nonprompt _ (by intro cs h; cases h)
      (handleStartError_promptOk retry hr _ _)
  · exact promptOk_nil

theorem runStart_promptOk :
    ∀ (fuel : Nat) (skip : Bool) (env : List EnvEvent),
      promptOk (runStart fuel skip env).trace := by
  intro fuel
  induction fuel with
  | zero => intro skip env; exact promptOk_nil
  | succ n ih =>
    intro skip env
    unfold runStart
    split
    · exact startPhase_promptOk _ (fun e => ih false e) env
    · split
      · split
        · exact promptOk_cons_nonprompt _ (by intro cs h; cases h)
            (promptOk_cons_nonprompt _ (by intro cs h; cases h) promptOk_nil)
        · exact promptOk_cons_nonprompt _ (by intro cs h; cases h)
            (startPhase_promptOk _ (fun e => ih false e) _)
      · exact promptOk_cons_nonprompt _ (by intro cs h; cases h)
          (startPhase_promptOk _ (fun e => ih false e) _)
      · exact promptOk_cons_nonprompt _ (by intro cs h; cases h) promptOk_nil

theorem withTrace_outcome (pre : List Action) (r : RunResult) :
    (withTrace pre r).outcome = r.outcome := rfl

theorem handleStartError_count (retry : List EnvEvent → RunResult)
    (hr : ∀ env, (retry env).outcome ≠ Outcome.outOfFuel →
      ((retry env).trace.count Action.checkExisting =
        (retry env).trace.count Action.stopOk + 1))
    (e : ExecErr) (env : List EnvEvent)
    (h : (handleStartError retry e env).outcome ≠ Outcome.outOfFuel) :
    (handleStartError retry e env).trace.count Action.checkExisting =
      (handleStartError retry e env).trace.count Action.stopOk := by
  unfold handleStartError
  unfold handleStartError at h
  split
  · split
    · split
      · split
        · rename_i a rest2
          simp only [withTrace, List.count_cons, List.count_append] at h ⊢
          have := hr rest2 (by
            revert h
            split <;> simp_all [withTrace])
          simp [withTrace, List.count_cons, this]
          omega
        · simp [List.count_cons]
        · simp [List.count_cons]
      · simp [List.count_cons]
      · simp [List.count_cons]
    · simp
  · simp

theorem startPhase_count (retry : List EnvEvent → RunResult)
    (hr : ∀ env, (retry env).outcome ≠ Outcome.outOfFuel →
      ((retry env).trace.count Action.checkExisting =
        (retry env).trace.count Action.stopOk + 1))
    (env : List EnvEvent)
    (h : (startPhase retry env).outcome ≠ Outcome.outOfFuel) :
    (startPhase retry env).trace.count Action.checkExisting =
      (startPhase retry env).trace.count Action.stopOk := by
  rcases env with - | ⟨ev, rest⟩
  · simp [startPhase, withTrace]
  rcases ev with r | r | a | r
  · simp [startPhase, withTrace]
  · rcases r with e | u
    · have hh : (handleStartError retry e rest).outcome ≠ Outcome.outOfFuel := by
        simpa [startPhase, withTrace] using h
      have hc := handleStartError_count retry hr e rest hh
      simp [startPhase, withTrace, List.count_cons, List.count_append, hc]
    · rcases rest with - | ⟨ev2, rest2⟩
      · simp [startPhase, withTrace]
      rcases ev2 with r2 | r2 | a2 | r2
      · rcases r2 with e2 | s
        · have hh : (handleStartError retry e2 rest2).outcome ≠ Outcome.outOfFuel := by
            simpa [startPhase, withTrace] using h
          have hc := handleStartError_count retry hr e2 rest2 hh
          simp [startPhase, withTrace, List.count_cons, List.count_append, hc]
        · simp [startPhase, withTrace, List.count_cons]
      · simp [startPhase, withTrace]
      · simp [startPhase, withTrace]
      · simp [startPhase, withTrace]
  · simp [startPhase, withTrace]
  · simp [startPhase, withTrace]

theorem runStart_count :
    ∀ (fuel : Nat) (skip : Bool) (env : List EnvEvent),
      (runStart fuel skip env).outcome ≠ Outcome.outOfFuel →
      (runStart fuel skip env).trace.count Action.checkExisting =
        (runStart fuel skip env).trace.count Action.stopOk +
          (if skip then 0 else 1) := by
  intro fuel
  induction fuel with
  | zero =>
    intro skip env h
    exact absurd rfl h
  | succ n ih =>
    intro skip env h
    have hretry : ∀ env, (runStart n false env).outcome ≠ Outcome.outOfFuel →
        ((runStart n false env).trace.count Action.checkExisting =
          (runStart n false env).trace.count Action.stopOk + 1) := by
      intro env2 h2
      simpa using ih false env2 h2
    cases skip with
    | true =>
      have h2 : (startPhase (fun e => runStart n false e) env).outcome ≠
          Outcome.outOfFuel := by
        simpa [runStart] using h
      have := startPhase_count (fun e => runStart n false e) hretry env h2
      simpa [runStart] using this
    | false =>
      rcases env with - | ⟨ev, rest⟩
      · simp [runStart, List.count_cons]
      rcases ev with r | r | a | r
      · rcases r with e | s
        · have h2 : (startPhase (fun e => runStart n false e) rest).outcome ≠
              Outcome.outOfFuel := by
            simpa [runStart, withTrace] using h
          have hc := startPhase_count (fun e => runStart n false e) hretry rest h2
          simp [runStart, withTrace, List.count_cons, hc]
        · by_cases hs : statusHasApiUrl s
          · simp [runStart, hs, List.count_cons]
          · have h2 : (startPhase (fun e => runStart n false e) rest).outcome ≠
                Outcome.outOfFuel := by
              simp only [Bool.not_eq_true] at hs
              simpa [runStart, withTrace, hs] using h
            have hc := startPhase_count (fun e => runStart n false e) hretry rest h2
            simp only [Bool.not_eq_true] at hs
            simp [runStart, withTrace, hs, List.count_cons, hc]
      · simp [runStart, List.count_cons]
      · simp [runStart, List.count_cons]
      · simp [runStart, List.count_cons]

/-- Claim C5: when `startSupabase` fails with error text containing
`port is already allocated`, the supervisor's prompt offers exactly the
three documented choices (every prompt in every trace carries exactly the
three documented names, the conflict branch with a scripted answer always
emits such a prompt, and an unrecognized failure never prompts); and
choosing stop-and-retry re-invokes the full startup protocol including the
already-running status check exactly once per retry: in every completed run
with the check enabled, the number of status checks performed is exactly the
number of successful stop-and-retry rounds plus one. -/
theorem claim5_thm :
    (∀ (skip : Bool) (env : List EnvEvent) (cs : List String),
      Action.prompt cs ∈ (startSupabase skip env).trace →
        cs = conflictChoiceNames) ∧
    (∀ (retry : List EnvEvent → RunResult) (e : ExecErr) (env : List EnvEvent),
      containsSub ("port is already allocated".data) (errText e).data = false →
      handleStartError retry e env =
        { outcome := Outcome.err "Supabase startup failed. See above for details.",
          trace := [] }) ∧
    (∀ (retry : List EnvEvent → RunResult) (e : ExecErr) (a : PromptChoice)
        (rest : List EnvEvent),
      containsSub ("port is already allocated".data) (errText e).data = true →
      ∃ tl, (handleStartError retry e (EnvEvent.promptAnswer a :: rest)).trace =
        Action.prompt conflictChoiceNames :: tl) ∧
    (∀ env : List EnvEvent,
      (startSupabase false env).outcome ≠ Outcome.outOfFuel →
      (startSupabase false env).trace.count Action.checkExisting =
        (startSupabase false env).trace.count Action.stopOk + 1) := by
  refine ⟨fun skip env cs h => runStart_promptOk (env.length + 1) skip env cs h,
    fun retry e env hc => ?_, fun retry e a rest hc => ?_, fun env h => ?_⟩
  · simp [handleStartError, hc]
  · cases a with
    | stop =>
      rcases rest with - | ⟨ev, rest2⟩
      · exact ⟨[Action.stopCmd], by simp [handleStartError, hc, withTrace]⟩
      rcases ev with r | r | a2 | r
      · exact ⟨[Action.stopCmd], by simp [handleStartError, hc, withTrace]⟩
      · exact ⟨[Action.stopCmd], by simp [handleStartError, hc, withTrace]⟩
      · exact ⟨[Action.stopCmd], by simp [handleStartError, hc, withTrace]⟩
      · rcases r with e2 | u
        · exact ⟨[Action.stopCmd], by simp [handleStartError, hc, withTrace]⟩
        · exact ⟨Action.stopCmd :: Action.stopOk :: (retry rest2).trace,
            by simp [handleStartError, hc, withTrace]⟩
    | skip => exact ⟨[], by simp [handleStartError, hc, withTrace]⟩
    | exit => exact ⟨[], by simp [handleStartError, hc, withTrace]⟩
  · simpa using runStart_count (env.length + 1) false env h

/-- Witness for C5: a full conflict-stop-retry-success script; the prompt in
its trace offers the documented three choices, and the completed run has
exactly one more status check than successful stop rounds. -/
theorem claim5_witness :
    conflictChoiceNames = conflictChoiceNames ∧
    (startSupabase false conflictScriptExample).trace.count Action.checkExisting =
      (startSupabase false conflictScriptExample).trace.count Action.stopOk + 1 :=
  ⟨claim5_thm.1 false conflictScriptExample conflictChoiceNames (by decide),
   claim5_thm.2.2.2 conflictScriptExample (by decide)⟩

/-! ## Claim C6 — section-scoped substitution

The claim quantifies over every input text.  It fails on texts in which the
header literal of one role occurs embedded inside the section of another
role (for instance inside a quoted string value): the replacement regex
matches at the first occurrence of the header literal, wherever it is, and
the greedy span then reaches into the assignments of the enclosing section.
The counterexample exhibits this.  What does hold for every text is the
span-based frame property: replacing the port of role A never changes any
span that follows an occurrence of the header literal of role B (the
notion of section text used by the claim), because the whole matched region
sits after an occurrence of the role-A header with no opening bracket in
between. -/

theorem digitChar_lt10_ne_bracket (m : Nat) (h : m < 10) : Nat.digitChar m ≠ '[' := by
  interval_cases m <;> decide

theorem toDigitsCore_no_bracket :
    ∀ (fuel n : Nat) (acc : List Char), (∀ c ∈ acc, c ≠ '[') →
      ∀ c ∈ Nat.toDigitsCore 10 fuel n acc, c ≠ '[' := by
  intro fuel
  induction fuel with
  | zero =>
    intro n acc hacc
    simpa [Nat.toDigitsCore] using hacc
  | succ f ih =>
    intro n acc hacc c hc
    simp only [Nat.toDigitsCore] at hc
    split at hc
    · rcases List.mem_cons.mp hc with h | h
      · subst h
        exact digitChar_lt10_ne_bracket _ (Nat.mod_lt _ (by omega))
      · exact hacc c h
    · refine ih (n / 10) (Nat.digitChar (n % 10) :: acc) ?_ c hc
      intro x hx
      rcases List.mem_cons.mp hx with h | h
      · subst h
        exact digitChar_lt10_ne_bracket _ (Nat.mod_lt _ (by omega))
      · exact hacc x h

theorem natRepr_no_bracket (p : Nat) : ∀ c ∈ (Nat.repr p).data, c ≠ '[' := by
  intro c hc
  have hd : (Nat.repr p).data = Nat.toDigits 10 p := rfl
  rw [hd] at hc
  exact toDigitsCore_no_bracket (p + 1) p [] (by simp) c hc

theorem isWs_ne_bracket {c : Char} (h : isWs c = true) : c ≠ '[' := by
  intro hc
  subst hc
  exact absurd h (by decide)

theorem isDigit_ne_bracket {c : Char} (h : isDigit c = true) : c ≠ '[' := by
  intro hc
  subst hc
  exact absurd h (by decide)

theorem portTail_shape (l g rest : List Char)
    (h : portTail l = some (g, rest)) :
    ∃ d, l = g ++ d ++ rest ∧ ∀ c ∈ g ++ d, c ≠ '[' := by
  unfold portTail at h
  split at h
  · cases h
  · rename_i r1 hr1
    split at h
    · rename_i r3 hr3
      split at h
      · cases h
      · rw [Option.some_inj, Prod.mk.injEq] at h
        obtain ⟨hg, hrest⟩ := h
        refine ⟨(r3.dropWhile isWs).takeWhile isDigit, ?_, ?_⟩
        · rw [← hg, ← hrest, (matchLit_some_iff _ _ _).mp hr1]
          conv_lhs => rw [← List.takeWhile_append_dropWhile isWs r1, hr3,
            ← List.takeWhile_append_dropWhile isWs r3,
            ← List.takeWhile_append_dropWhile isDigit (r3.dropWhile isWs)]
          simp [List.append_assoc]
        · intro c hc
          rw [← hg] at hc
          have hport : ∀ x ∈ ("port" : String).data, x ≠ '[' := by decide
          rcases List.mem_append.mp hc with hgm | hdm
          · rcases List.mem_append.mp hgm with h1 | h2
            · rcases List.mem_append.mp h1 with hp | hw
              · exact hport c hp
              · exact isWs_ne_bracket (List.mem_takeWhile_imp hw)
            · rcases List.mem_cons.mp h2 with he | hw
              · subst he
                decide
              · exact isWs_ne_bracket (List.mem_takeWhile_imp hw)
          · exact isDigit_ne_bracket (List.mem_takeWhile_imp hdm)
    · cases h

theorem scanLazy_shape (tail : List Char → Option (List Char × List Char))
    (htail : ∀ l g rest, tail l = some (g, rest) →
      ∃ d, l = g ++ d ++ rest ∧ ∀ c ∈ g ++ d, c ≠ '[') :
    ∀ l mid g rest, scanLazy tail l = some (mid, g, rest) →
      ∃ d, l = mid ++ g ++ d ++ rest ∧ ∀ c ∈ mid ++ g ++ d, c ≠ '[' := by
  intro l
  induction l with
  | nil =>
    intro mid g rest h
    unfold scanLazy at h
    cases ht : tail [] with
    | none => rw [ht] at h; cases h
    | some pr =>
      obtain ⟨g2, rest2⟩ := pr
      rw [ht] at h
      simp only [Option.map_some'] at h
      rw [Option.some_inj] at h
      simp only [Prod.mk.injEq] at h
      obtain ⟨hm, hg, hr⟩ := h
      subst hm hg hr
      obtain ⟨d, hl, hnb⟩ := htail [] _ _ ht
      exact ⟨d, by simpa using hl, by simpa using hnb⟩
  | cons c cs ih =>
    intro mid g rest h
    unfold scanLazy at h
    split at h
    · rename_i g2 rest2 ht
      rw [Option.some_inj] at h
      simp only [Prod.mk.injEq] at h
      obtain ⟨hm, hg, hr⟩ := h
      subst hm hg hr
      obtain ⟨d, hl, hnb⟩ := htail (c :: cs) g2 rest2 ht
      exact ⟨d, by simpa using hl, by simpa using hnb⟩
    · rename_i ht
      split at h
      · cases h
      · rename_i hcbr
        cases hsc : scanLazy tail cs with
        | none => rw [hsc] at h; cases h
        | some tri =>
          obtain ⟨mid2, g2, rest2⟩ := tri
          rw [hsc] at h
          simp only [Option.map_some'] at h
          rw [Option.some_inj] at h
          simp only [Prod.mk.injEq] at h
          obtain ⟨hm, hg, hr⟩ := h
          subst hg hr
          obtain ⟨d, hl, hnb⟩ := ih mid2 _ _ hsc
          refine ⟨d, ?_, ?_⟩
          · rw [← hm]
            simp only [List.cons_append]
            rw [← hl]
          · rw [← hm]
            intro x hx
            simp only [List.cons_append, List.mem_cons] at hx
            rcases hx with hx | hx
            · subst hx
              exact hcbr
            · exact hnb x (by simpa using hx)

theorem scanGreedy_shape (tail : List Char → Option (List Char × List Char))
    (htail : ∀ l g rest, tail l = some (g, rest) →
      ∃ d, l = g ++ d ++ rest ∧ ∀ c ∈ g ++ d, c ≠ '[') :
    ∀ l mid g rest, scanGreedy tail l = some (mid, g, rest) →
      ∃ d, l = mid ++ g ++ d ++ rest ∧ ∀ c ∈ mid ++ g ++ d, c ≠ '[' := by
  intro l
  induction l with
  | nil =>
    intro mid g rest h
    unfold scanGreedy at h
    cases ht : tail [] with
    | none => rw [ht] at h; cases h
    | some pr =>
      obtain ⟨g2, rest2⟩ := pr
      rw [ht] at h
      simp only [Option.map_some'] at h
      rw [Option.some_inj] at h
      simp only [Prod.mk.injEq] at h
      obtain ⟨hm, hg, hr⟩ := h
      subst hm hg hr
      obtain ⟨d, hl, hnb⟩ := htail [] _ _ ht
      exact ⟨d, by simpa using hl, by simpa using hnb⟩
  | cons c cs ih =>
    intro mid g rest h
    unfold scanGreedy at h
    split at h
    · rename_i hcbr
      cases ht : tail (c :: cs) with
      | none => rw [ht] at h; cases h
      | some pr =>
        obtain ⟨g2, rest2⟩ := pr
        rw [ht] at h
        simp only [Option.map_some'] at h
        rw [Option.some_inj] at h
        simp only [Prod.mk.injEq] at h
        obtain ⟨hm, hg, hr⟩ := h
        subst hm hg hr
        obtain ⟨d, hl, hnb⟩ := htail (c :: cs) _ _ ht
        exact ⟨d, by simpa using hl, by simpa using hnb⟩
    · rename_i hcbr
      split at h
      · rename_i mid2 g2 rest2 hsc
        rw [Option.some_inj] at h
        simp only [Prod.mk.injEq] at h
        obtain ⟨hm, hg, hr⟩ := h
        subst hg hr
        obtain ⟨d, hl, hnb⟩ := ih mid2 _ _ hsc
        refine ⟨d, ?_, ?_⟩
        · rw [← hm]
          simp only [List.cons_append]
          rw [← hl]
        · rw [← hm]
          intro x hx
          simp only [List.cons_append, List.mem_cons] at hx
          rcases hx with hx | hx
          · subst hx
            exact hcbr
          · exact hnb x (by simpa using hx)
      · rename_i hsc
        cases ht : tail (c :: cs) with
        | none => rw [ht] at h; cases h
        | some pr =>
          obtain ⟨g2, rest2⟩ := pr
          rw [ht] at h
          simp only [Option.map_some'] at h
          rw [Option.some_inj] at h
          simp only [Prod.mk.injEq] at h
          obtain ⟨hm, hg, hr⟩ := h
          subst hm hg hr
          obtain ⟨d, hl, hnb⟩ := htail (c :: cs) _ _ ht
          exact ⟨d, by simpa using hl, by simpa using hnb⟩

theorem matchPortSection_shape (hdr : List Char) (greedy : Bool) (p : Nat)
    (l repl rest : List Char)
    (h : matchPortSection hdr greedy p l = some (repl, rest)) :
    ∃ mid g d, l = hdr ++ ((mid ++ g ++ d) ++ rest) ∧
      repl = hdr ++ (mid ++ g ++ (Nat.repr p).data) ∧
      (∀ c ∈ mid ++ g ++ d, c ≠ '[') ∧
      (∀ c ∈ mid ++ g ++ (Nat.repr p).data, c ≠ '[') := by
  unfold matchPortSection at h
  split at h
  · cases h
  · rename_i r hr
    split at h
    · cases h
    · rename_i mid g2 rest2 htri
      rw [Option.some_inj, Prod.mk.injEq] at h
      obtain ⟨hrepl, hrest⟩ := h
      have hshape : ∃ d, r = mid ++ g2 ++ d ++ rest2 ∧
          ∀ c ∈ mid ++ g2 ++ d, c ≠ '[' := by
        cases greedy with
        | true => exact scanGreedy_shape portTail portTail_shape r mid g2 rest2 (by simpa using htri)
        | false => exact scanLazy_shape portTail portTail_shape r mid g2 rest2 (by simpa using htri)
      obtain ⟨d, hrd, hnb⟩ := hshape
      refine ⟨mid, g2, d, ?_, ?_, ?_, ?_⟩
      · rw [(matchLit_some_iff _ _ _).mp hr, hrd, ← hrest]
      · rw [← hrepl]
        simp [List.append_assoc]
      · exact hnb
      · intro c hc
        rcases List.mem_append.mp hc with hc | hc
        · exact hnb c (List.mem_append.mpr (Or.inl hc))
        · exact natRepr_no_bracket p c hc

theorem matchLit_bracket_head_ne (hs : List Char) (c : Char) (t : List Char)
    (hc : c ≠ '[') : matchLit ('[' :: hs) (c :: t) = none := by
  simp [matchLit, hc]

theorem sectionSpans_skip (hs : List Char) :
    ∀ (w rest : List Char), (∀ c ∈ w, c ≠ '[') →
      sectionSpans ('[' :: hs) (w ++ rest) = sectionSpans ('[' :: hs) rest := by
  intro w
  induction w with
  | nil => intro rest _; rfl
  | cons c w' ih =>
    intro rest hw
    have hc : c ≠ '[' := hw c (List.mem_cons_self c w')
    show sectionSpans ('[' :: hs) (c :: (w' ++ rest)) = _
    simp only [sectionSpans, matchLit_bracket_head_ne hs c _ hc]
    exact ih rest (fun x hx => hw x (List.mem_cons_of_mem c hx))

theorem takeWhile_append_stop (p : Char → Bool) (c : Char) (hc : p c = false) :
    ∀ (t z z' : List Char),
      (t ++ c :: z).takeWhile p = (t ++ c :: z').takeWhile p := by
  intro t
  induction t with
  | nil => intro z z'; simp [List.takeWhile_cons, hc]
  | cons a t' ih =>
    intro z z'
    simp only [List.cons_append, List.takeWhile_cons]
    cases p a <;> simp [ih z z']

theorem header_prefix_of_eq (hs : List Char) (hbr : ∀ c ∈ hs, c ≠ '[')
    (c : Char) (u' z r : List Char)
    (heq : c :: u' ++ '[' :: z = '[' :: hs ++ r) :
    ∃ t', c :: u' = '[' :: hs ++ t' ∧ r = t' ++ '[' :: z := by
  simp only [List.cons_append, List.cons.injEq] at heq
  obtain ⟨hc, hrest⟩ := heq
  rcases List.append_eq_append_iff.mp hrest with ⟨a, ha1, ha2⟩ | ⟨b, hb1, hb2⟩
  · cases a with
    | nil =>
      simp at ha1 ha2
      exact ⟨[], by simp [hc, ha1], by simp [ha2]⟩
    | cons x a' =>
      exfalso
      have hx : x = '[' := by
        simp only [List.cons_append] at ha2
        exact (List.cons.injEq _ _ _ _ ▸ ha2).1.symm
      subst hx
      exact hbr '[' (by rw [ha1]; simp) rfl
  · exact ⟨b, by simp [hc, hb1], by simp [hb2]⟩

theorem sectionSpans_splice (hs : List Char) (hbr : ∀ c ∈ hs, c ≠ '[') :
    ∀ (u w w' rest : List Char), (∀ c ∈ w, c ≠ '[') → (∀ c ∈ w', c ≠ '[') →
      matchLit ('[' :: hs) ('[' :: (w ++ rest)) = none →
      matchLit ('[' :: hs) ('[' :: (w' ++ rest)) = none →
      sectionSpans ('[' :: hs) (u ++ '[' :: (w ++ rest)) =
        sectionSpans ('[' :: hs) (u ++ '[' :: (w' ++ rest)) := by
  intro u
  induction u with
  | nil =>
    intro w w' rest hw hw' h1 h2
    show sectionSpans ('[' :: hs) ('[' :: (w ++ rest)) = _
    simp only [sectionSpans, h1, h2]
    rw [sectionSpans_skip hs w rest hw, sectionSpans_skip hs w' rest hw']
  | cons c u' ih =>
    intro w w' rest hw hw' h1 h2
    show sectionSpans ('[' :: hs) (c :: (u' ++ '[' :: (w ++ rest))) = _
    by_cases hpre : ∃ t', c :: u' = '[' :: hs ++ t'
    · obtain ⟨t', ht'⟩ := hpre
      have hm1 : matchLit ('[' :: hs) (c :: (u' ++ '[' :: (w ++ rest))) =
          some (t' ++ '[' :: (w ++ rest)) := by
        rw [matchLit_some_iff]
        rw [show c :: (u' ++ '[' :: (w ++ rest)) = (c :: u') ++ '[' :: (w ++ rest) from rfl,
          ht']
        simp [List.append_assoc]
      have hm2 : matchLit ('[' :: hs) (c :: (u' ++ '[' :: (w' ++ rest))) =
          some (t' ++ '[' :: (w' ++ rest)) := by
        rw [matchLit_some_iff]
        rw [show c :: (u' ++ '[' :: (w' ++ rest)) = (c :: u') ++ '[' :: (w' ++ rest) from rfl,
          ht']
        simp [List.append_assoc]
      simp only [sectionSpans, List.append_eq, hm1, hm2]
      rw [takeWhile_append_stop (fun x => x ≠ '[') '[' (by simp) t'
          (w ++ rest) (w' ++ rest),
        ih w w' rest hw hw' h1 h2]
    · have hm1 : matchLit ('[' :: hs) (c :: (u' ++ '[' :: (w ++ rest))) = none := by
        cases hmm : matchLit ('[' :: hs) (c :: (u' ++ '[' :: (w ++ rest))) with
        | none => rfl
        | some r =>
          exfalso
          have := (matchLit_some_iff _ _ _).mp hmm
          obtain ⟨t', ht', -⟩ := header_prefix_of_eq hs hbr c u' (w ++ rest) r
            (by simpa using this)
          exact hpre ⟨t', ht'⟩
      have hm2 : matchLit ('[' :: hs) (c :: (u' ++ '[' :: (w' ++ rest))) = none := by
        cases hmm : matchLit ('[' :: hs) (c :: (u' ++ '[' :: (w' ++ rest))) with
        | none => rfl
        | some r =>
          exfalso
          have := (matchLit_some_iff _ _ _).mp hmm
          obtain ⟨t', ht', -⟩ := header_prefix_of_eq hs hbr c u' (w' ++ rest) r
            (by simpa using this)
          exact hpre ⟨t', ht'⟩
      simp only [sectionSpans, List.append_eq, hm1, hm2]
      exact ih w w' rest hw hw' h1 h2

theorem replaceRolePort_eq (r : Role) (p : Nat) (t : List Char) :
    replaceRolePort r p t =
      replaceFirst (matchPortSection (roleHeader r) (roleGreedy r) p) t := by
  cases r <;> rfl

theorem roleHeader_eq (r : Role) : roleHeader r = '[' :: roleInner r := by
  cases r <;> rfl

theorem roleInner_no_bracket (r : Role) : ∀ c ∈ roleInner r, c ≠ '[' := by
  cases r <;> decide

theorem roleInner_mismatch (r s : Role) (h : r ≠ s) :
    ∀ z, matchLit (roleInner s) (roleInner r ++ z) = none := by
  cases r <;> cases s <;>
    first
      | exact absurd rfl h
      | (intro z; simp [roleInner, matchLit])

/-- Claim C6 (amended): the section-scoped frame property that holds for
every input text: replacing the port assignment of one role never changes
the text of the section of any other role, where the section text of a role
consists of the spans running from each occurrence of its section-header
literal to the next opening bracket.  (As the counterexample shows, when
the header literal of a different role occurs embedded inside a section —
e.g. within a quoted value — the replacement can change the lines of the
embedding section, so the claim is amended to speak of the spans following
the header occurrences.) -/
theorem claim6_amended_thm (r s : Role) (hrs : r ≠ s) (p : Nat) (t : List Char) :
    sectionSpans (roleHeader s) (replaceRolePort r p t) =
      sectionSpans (roleHeader s) t := by
  rw [replaceRolePort_eq]
  rcases replaceFirst_cases (matchPortSection (roleHeader r) (roleGreedy r) p) t
    with heq | ⟨pre, suf, repl, rest, ht, hm, hres⟩
  · rw [heq]
  · obtain ⟨mid, g, d, hsuf, hrepl, hnb, hnbd⟩ :=
      matchPortSection_shape (roleHeader r) (roleGreedy r) p suf repl rest hm
    rw [hres, hrepl, ht, hsuf, roleHeader_eq r, roleHeader_eq s]
    have hw : ∀ c ∈ roleInner r ++ (mid ++ g ++ (Nat.repr p).data), c ≠ '[' := by
      intro c hc
      rcases List.mem_append.mp hc with hc | hc
      · exact roleInner_no_bracket r c hc
      · exact hnbd c hc
    have hw' : ∀ c ∈ roleInner r ++ (mid ++ g ++ d), c ≠ '[' := by
      intro c hc
      rcases List.mem_append.mp hc with hc | hc
      · exact roleInner_no_bracket r c hc
      · exact hnb c hc
    have h1 : matchLit ('[' :: roleInner s)
        ('[' :: ((roleInner r ++ (mid ++ g ++ (Nat.repr p).data)) ++ rest)) = none := by
      have hmm := roleInner_mismatch r s hrs ((mid ++ g ++ (Nat.repr p).data) ++ rest)
      simp only [matchLit, if_pos rfl]
      simpa [List.append_assoc] using hmm
    have h2 : matchLit ('[' :: roleInner s)
        ('[' :: ((roleInner r ++ (mid ++ g ++ d)) ++ rest)) = none := by
      have hmm := roleInner_mismatch r s hrs ((mid ++ g ++ d) ++ rest)
      simp only [matchLit, if_pos rfl]
      simpa [List.append_assoc] using hmm
    have hspl := sectionSpans_splice (roleInner s) (roleInner_no_bracket s) pre
      (roleInner r ++ (mid ++ g ++ (Nat.repr p).data))
      (roleInner r ++ (mid ++ g ++ d)) rest hw hw' h1 h2
    simp only [List.append_assoc, List.cons_append] at hspl ⊢
    exact hspl

/-- Claim C6 counterexample: in a config whose studio section contains the
text of the api header inside a quoted string value, replacing the api port
rewrites an assignment inside the lines of the studio section. -/
theorem claim6_counterexample :
    sectionLines ("[studio]" : String).data (replaceApiPort 54421
      ("[studio]\nx = \"see [api] port = 11\"\nport = 22\n[api]\nport = 33\n" : String).data) ≠
    sectionLines ("[studio]" : String).data
      ("[studio]\nx = \"see [api] port = 11\"\nport = 22\n[api]\nport = 33\n" : String).data := by
  decide

/-- Witness for the amended C6 theorem: rewriting the api port leaves the
section span of the studio header unchanged on a concrete config. -/
theorem claim6_amended_witness :
    sectionSpans (roleHeader Role.studio)
      (replaceRolePort Role.api 54421
        ("[api]\nport = 54321\n\n[studio]\nport = 54323\n" : String).data) =
    sectionSpans (roleHeader Role.studio)
      ("[api]\nport = 54321\n\n[studio]\nport = 54323\n" : String).data :=
  claim6_amended_thm Role.api Role.studio (by decide) 54421 _

end Likable
